import Mathlib

/-!
Verification of the MMArchiveCLI repository (Python sources) against its
natural-language specification.  Shallow embedding: the Python functions the
claims refer to are translated into executable Lean definitions; machine
integers are modelled as `Nat`/`Int` (the Python code uses unbounded ints read
from little-endian byte slices), byte buffers as `List Nat`, fallible code as
`Option`/`Except`.  External libraries (zlib, PIL resampling, the JSON config
predicates) are modelled as explicit function parameters, never as stubs of
repository code.
-/

namespace MMArchiveCLI

/-- One step of the dictionary build in `most_repeated_frame`
(src/MMArchiveCLI.py lines 82-88): append occurrence index `i` to the entry
for `name`, creating a new entry at the end when `name` is absent.
Python dicts preserve insertion order, so an association list is faithful. -/
def addOccurrence : List (String × List Nat) → String → Nat → List (String × List Nat)
  | [], name, i => [(name, [i])]
  | (k, v) :: rest, name, i =>
      if k = name then (k, v ++ [i]) :: rest else (k, v) :: addOccurrence rest name i

/-- Auxiliary recursion for `frameCounts`: process the frames `fs`, the next
frame having absolute index `i0`. -/
def frameCountsAux : Nat → List String → List (String × List Nat) → List (String × List Nat)
  | _, [], acc => acc
  | i0, f :: fs, acc => frameCountsAux (i0 + 1) fs (addOccurrence acc f i0)

/-- The `frame_counts` dictionary of `most_repeated_frame`
(src/MMArchiveCLI.py lines 82-88), keyed by frame name, holding the list of
occurrence indices in order. -/
def frameCounts (frames : List String) : List (String × List Nat) :=
  frameCountsAux 0 frames []

/-- `most_repeated_frame` (src/MMArchiveCLI.py lines 80-97): scan the
dictionary in insertion order keeping the first entry whose multiplicity
strictly exceeds the best so far; return its first occurrence index
(`indices[0]`; every entry's list is nonempty, `headD 0` mirrors that). -/
def mostRepeatedFrame (frames : List String) : Nat :=
  ((frameCounts frames).foldl
    (fun best kv =>
      if kv.2.length > best.1 then (kv.2.length, kv.2.headD 0) else best)
    (0, 0)).2

/-- `get_frame_durations` (src/MMArchiveCLI.py lines 168-187).  Durations are
exact rationals: Python computes `1000/8` and `1000/6` in float division; the
values are 125 and 500/3 (≈166.67).  The external predicate
`isAdvMapCreature(def_name)` looks up objectsByID.json (outside the core, §1
of the spec); it is constant over the loop and passed here as the Boolean
`isAdv`. -/
def getFrameDurations (frames : List String) (defType : String) (groupId : Nat)
    (isAdv : Bool) : List ℚ :=
  let pNum := mostRepeatedFrame frames
  (List.range frames.length).map fun num =>
    if defType = "9" ∧ groupId = 4 ∧ num = 5 then 1000
    else if defType = "9" ∧ groupId = 1 then 1000 / 8
    else if defType = "2" ∧ groupId = 2 ∧ num = 7 then 3000
    else if defType = "3" ∧ isAdv = true ∧ num = pNum then 1000
    else if defType = "3" then 1000 / 6
    else 100

/-- Maximum multiplicity of any frame name in the list. -/
def maxMult (frames : List String) : Nat :=
  (frames.map fun s => frames.count s).foldr max 0

/-- Specification helper: the list of indices (offset by `i0`) at which `name`
occurs in the frame list. -/
def occIdxs : Nat → List String → String → List Nat
  | _, [], _ => []
  | i0, f :: fs, name =>
      if f = name then i0 :: occIdxs (i0 + 1) fs name else occIdxs (i0 + 1) fs name

/-- Look up the occurrence list recorded for `name` in the dictionary. -/
def lookupIdxs : List (String × List Nat) → String → List Nat
  | [], _ => []
  | kv :: rest, name => if kv.1 = name then kv.2 else lookupIdxs rest name

/-- The selection step of `most_repeated_frame`: keep the first entry whose
multiplicity strictly exceeds the best so far. -/
def mrStep (best : Nat × Nat) (kv : String × List Nat) : Nat × Nat :=
  if kv.2.length > best.1 then (kv.2.length, kv.2.headD 0) else best

/-- Ordering on dictionary entries by their first occurrence index. -/
def headLt (a b : String × List Nat) : Prop := a.2.headD 0 < b.2.headD 0

end MMArchiveCLI

namespace RSDef

/-- DEF frame block header, eight little-endian u32 fields
(`TRSDefPic` in src/src/RSDef.py lines 52-61). -/
structure PicHdr where
  fileSize : Nat
  compression : Nat
  width : Nat
  height : Nat
  frameWidth : Nat
  frameHeight : Nat
  frameLeft : Nat
  frameTop : Nat
deriving DecidableEq, Repr

/-- Little-endian 32-bit read, out-of-range bytes as 0 (reads in the decoder
are range-guarded before use, mirroring the slicing in the source). -/
def readU32 (data : List Nat) (off : Nat) : Nat :=
  data.getD off 0 + 256 * data.getD (off + 1) 0 + 65536 * data.getD (off + 2) 0 +
    16777216 * data.getD (off + 3) 0

/-- Little-endian 16-bit read. -/
def readU16 (data : List Nat) (off : Nat) : Nat :=
  data.getD off 0 + 256 * data.getD (off + 1) 0

/-- Python slice `data[a:a+n]` (clips at the end of the list). -/
def sliceList (data : List Nat) (a n : Nat) : List Nat :=
  (data.drop a).take n

/-- Parse the 32-byte frame header at `off`
(`struct.unpack('<8I', self.data[o:o+32])`, raising when short). -/
def parsePicHdr (data : List Nat) (off : Nat) : Option PicHdr :=
  if off + 32 ≤ data.length then
    some ⟨readU32 data off, readU32 data (off + 4), readU32 data (off + 8),
      readU32 data (off + 12), readU32 data (off + 16), readU32 data (off + 20),
      readU32 data (off + 24), readU32 data (off + 28)⟩
  else none

/-- The legacy-format condition of `_do_extract_buffer` / `_extract_buffer`
(src/src/RSDef.py lines 223, 326). -/
def legacyQuirk (hdr : PicHdr) : Prop :=
  hdr.frameWidth > hdr.width ∧ hdr.frameHeight > hdr.height ∧ hdr.compression = 1

instance (hdr : PicHdr) : Decidable (legacyQuirk hdr) := by
  unfold legacyQuirk; infer_instance

/-- The header after the legacy-quirk adjustment: rectangle forced to
`(0, 0, width, height)`. -/
def adjHdr (hdr : PicHdr) : PicHdr :=
  { hdr with frameLeft := 0, frameTop := 0,
             frameWidth := hdr.width, frameHeight := hdr.height }

/-- Object and shadow buffers during decoding.  When the source aliases
`sh_buf = buf` (single-buffer mode) the model keeps `buf = sh` by writing
both. -/
structure Bufs where
  buf : List Nat
  sh : List Nat
deriving DecidableEq, Repr

/-- Apply a write to the object buffer (`buf`); in aliased mode the shadow is
the same bytearray, so it receives the write too. -/
def wObj (both : Bool) (st : Bufs) (f : List Nat → List Nat) : Bufs :=
  if both then { st with buf := f st.buf } else ⟨f st.buf, f st.sh⟩

/-- Apply a write to the shadow buffer (`sh_buf`); in aliased mode the object
buffer is the same bytearray. -/
def wSh (both : Bool) (st : Bufs) (f : List Nat → List Nat) : Bufs :=
  if both then { st with sh := f st.sh } else ⟨f st.buf, f st.sh⟩

/-- The literal-copy inner loop: `for k in range(n): if p + k < len(data):
buf[base + k] = data[p + k]`. -/
def writeLits (data : List Nat) (b : List Nat) (base p : Nat) : Nat → List Nat
  | 0 => b
  | n + 1 =>
      writeLits data
        (if p < data.length then b.set base (data.getD p 0) else b)
        (base + 1) (p + 1) n

/-- The fill inner loop: `for k in range(n): b[base + k] = v`. -/
def fillRun (b : List Nat) (base v : Nat) : Nat → List Nat
  | 0 => b
  | n + 1 => fillRun (b.set base v) (base + 1) v n

/-- Compression-1 line loop (src/src/RSDef.py lines 253-273 and 354-375):
opcode pairs `{code, length-1}`; `code == 255` copies `length` literal bytes
into the object buffer, any other code fills `length` shadow pixels with
`code`.  `fuel` bounds the iteration count (each step advances `i` by at
least 1, so `x` steps suffice); running out of fuel returns the current
buffers exactly like the `break` paths. -/
def c1Line (data : List Nat) (x : Nat) (both : Bool) (j : Nat) :
    Bufs → Nat → Nat → Nat → Bufs
  | st, _, _, 0 => st
  | st, p, i, fuel + 1 =>
      if i < x then
        if data.length ≤ p + 1 then st
        else
          let code := data.getD p 0
          let value := data.getD (p + 1) 0
          let len := value + 1
          if code = 255 then
            c1Line data x both j
              (wObj both st fun b => writeLits data b (j * x + i) (p + 2) (min len (x - i)))
              (p + 2 + len) (i + len) fuel
          else
            c1Line data x both j
              (wSh both st fun b => fillRun b (j * x + i) code (min len (x - i)))
              (p + 2) (i + len) fuel
      else st

/-- Compression-1 row loop: read the u32 row offset for each of the `y` rows
(`none` when the offset slice is short, mirroring `struct.unpack` raising)
then decode the line starting at `block + line_offset`. -/
def c1Rows (data : List Nat) (block x : Nat) (both : Bool) :
    Nat → Nat → Bufs → Option Bufs
  | _, 0, st => some st
  | j, n + 1, st =>
      if block + j * 4 + 4 ≤ data.length then
        let lineOff := readU32 data (block + j * 4)
        c1Rows data block x both (j + 1) n
          (c1Line data x both j st (block + lineOff) 0 x)
      else none

/-- Compression-2/3 line loop (src/src/RSDef.py lines 284-304 and 388-409):
each opcode byte `v` decodes as `code = v / 32`, `length = v % 32 + 1`;
`code == 7` copies `length` literal bytes into the object buffer, other codes
fill `length` shadow pixels with `code`, and `code == 5` additionally writes
5 into the object buffer (in `_do_extract_buffer` only when both buffers are
requested; with aliased buffers the shadow write already lands in `buf`). -/
def c2Line (data : List Nat) (x : Nat) (both : Bool) (j : Nat) :
    Bufs → Nat → Nat → Nat → Bufs
  | st, _, _, 0 => st
  | st, p, i, fuel + 1 =>
      if i < x then
        if data.length ≤ p then st
        else
          let value := data.getD p 0
          let code := value / 32
          let len := value % 32 + 1
          if code = 7 then
            c2Line data x both j
              (wObj both st fun b => writeLits data b (j * x + i) (p + 1) (min len (x - i)))
              (p + 1 + len) (i + len) fuel
          else
            let st1 := wSh both st fun b => fillRun b (j * x + i) code (min len (x - i))
            let st2 := if code = 5 ∧ both = true then
                { st1 with buf := fillRun st1.buf (j * x + i) code (min len (x - i)) }
              else st1
            c2Line data x both j st2 (p + 1) (i + len) fuel
      else st

/-- Compression-2/3 row loop: u16 row offsets. -/
def c2Rows (data : List Nat) (block x : Nat) (both : Bool) :
    Nat → Nat → Bufs → Option Bufs
  | _, 0, st => some st
  | j, n + 1, st =>
      if block + j * 2 + 2 ≤ data.length then
        let lineOff := readU16 data (block + j * 2)
        c2Rows data block x both (j + 1) n
          (c2Line data x both j st (block + lineOff) 0 x)
      else none

/-- The decompression part of `_do_extract_buffer` (everything after the
legacy-quirk adjustment, src/src/RSDef.py lines 233-307), given the adjusted
header and the adjusted block start: allocate the buffers (object zeroed,
shadow 255, aliased when `both = false`), run the per-compression loops, and
package the result quadruple `(hdr, pic, buf?, sh?)` where the third
component is `None` for an empty buffer (`bytes(buf) if buf else None`) and
the fourth is `None` when the shadow compares equal to the object buffer
(`bytes(sh_buf) if sh_buf != buf else None` — Python bytearray equality is by
value). -/
def extractCore (data : List Nat) (hdr : PicHdr) (block : Nat) (both : Bool) :
    Option (PicHdr × List Nat × Option (List Nat) × Option (List Nat)) :=
  let x := hdr.frameWidth
  let y := hdr.frameHeight
  if hdr.compression = 0 then
    some (hdr, sliceList data block (x * y), none, none)
  else
    let st0 : Bufs :=
      if both then ⟨List.replicate (x * y) 0, List.replicate (x * y) 255⟩
      else ⟨List.replicate (x * y) 0, List.replicate (x * y) 0⟩
    let res : Option Bufs :=
      if hdr.compression = 1 then
        c1Rows data block x both 0 y st0
      else if hdr.compression = 2 ∨ hdr.compression = 3 then
        let x2 := if hdr.compression = 3 then 32 else x
        let y2 := if hdr.compression = 3 then y * (x / 32) else y
        c2Rows data block x2 both 0 y2 st0
      else some st0
    match res with
    | none => none
    | some st =>
        some (hdr, st.buf,
          if st.buf.length ≠ 0 then some st.buf else none,
          if st.sh ≠ st.buf then some st.sh else none)

/-- `TRSDefWrapper._do_extract_buffer` (src/src/RSDef.py lines 206-307) on a
raw frame-block offset: parse the header; when the legacy-quirk condition
holds, force the rectangle to `(0, 0, width, height)` and move the block
start 16 bytes back (`block -= 16`); otherwise use the stored rectangle. -/
def doExtractBuffer (data : List Nat) (off : Nat) (both : Bool) :
    Option (PicHdr × List Nat × Option (List Nat) × Option (List Nat)) :=
  match parsePicHdr data off with
  | none => none
  | some hdr0 =>
      if legacyQuirk hdr0 then
        extractCore data (adjHdr hdr0) (off + 32 - 16) both
      else
        extractCore data hdr0 (off + 32) both

/-- The decompression part of `_extract_buffer` (src/src/RSDef.py lines
335-411): always two distinct buffers; compression 0 returns
`(hdr, raw_pixels, None)`, other compressions return `(hdr, buf, sh_buf)`.
The loops are those of `_do_extract_buffer` with both buffers present (there
`code == 5` always writes the object buffer, which equals the
`both = true` behaviour of `c2Line`). -/
def extractBufferCore (data : List Nat) (hdr : PicHdr) (block : Nat) :
    Option (PicHdr × List Nat × Option (List Nat)) :=
  let x := hdr.frameWidth
  let y := hdr.frameHeight
  if hdr.compression = 0 then
    some (hdr, sliceList data block (x * y), none)
  else
    let st0 : Bufs := ⟨List.replicate (x * y) 0, List.replicate (x * y) 255⟩
    let res : Option Bufs :=
      if hdr.compression = 1 then
        c1Rows data block x true 0 y st0
      else if hdr.compression = 2 ∨ hdr.compression = 3 then
        let x2 := if hdr.compression = 3 then 32 else x
        let y2 := if hdr.compression = 3 then y * (x / 32) else y
        c2Rows data block x2 true 0 y2 st0
      else some st0
    match res with
    | none => none
    | some st => some (hdr, st.buf, some st.sh)

/-- `TRSDefWrapper._extract_buffer` (src/src/RSDef.py lines 309-411) on a raw
frame-block offset, with the same legacy-quirk adjustment. -/
def extractBuffer (data : List Nat) (off : Nat) :
    Option (PicHdr × List Nat × Option (List Nat)) :=
  match parsePicHdr data off with
  | none => none
  | some hdr0 =>
      if legacyQuirk hdr0 then
        extractBufferCore data (adjHdr hdr0) (off + 32 - 16)
      else
        extractBufferCore data hdr0 (off + 32)

/-- A palette-mode PIL image: width, height, row-major pixel bytes. -/
structure Img where
  w : Nat
  h : Nat
  px : List Nat
deriving DecidableEq, Repr

/-- `img.getpixel((x, y))` for a palette-mode image. -/
def getPx (im : Img) (x y : Nat) : Nat :=
  im.px.getD (y * im.w + x) 0

/-- PIL `Image.getbbox()`: the bounding box of the non-zero pixels,
`(left, top, right, bottom)` with exclusive right/bottom, `None` when the
image is entirely zero. -/
def getbbox (im : Img) : Option (Nat × Nat × Nat × Nat) :=
  let coords := (List.range im.h).foldl
    (fun acc y => acc ++ (List.range im.w).filterMap
      (fun x => if getPx im x y ≠ 0 then some (x, y) else none)) []
  match coords with
  | [] => none
  | c :: cs =>
      let xs := (c :: cs).map Prod.fst
      let ys := (c :: cs).map Prod.snd
      some (xs.foldr min c.1, ys.foldr min c.2,
        xs.foldr max 0 + 1, ys.foldr max 0 + 1)

/-- Paste a `fw × fh` frame at `(left, top)` onto a `cw × ch` canvas whose
other pixels are 0 (`Image.new('P', (W, H), 0)` followed by `paste`,
clipping to the canvas). -/
def pasteCanvas (cw ch : Nat) (frame : List Nat) (fw fh left top : Nat) : List Nat :=
  (List.range (cw * ch)).map fun idx =>
    let x := idx % cw
    let y := idx / cw
    if left ≤ x ∧ x < left + fw ∧ top ≤ y ∧ y < top + fh then
      frame.getD ((y - top) * fw + (x - left)) 0
    else 0

/-- The canvas assembly of `_do_extract_bmp` (src/src/RSDef.py lines
413-460): decode a frame with both buffers, paste the object buffer (when
nonempty) and the shadow buffer (255-filled when absent) at
`(frame_left, frame_top)` onto `width × height` canvases initialised to 0. -/
def decodeCanvases (data : List Nat) (off : Nat) : Option (Img × Img) :=
  match doExtractBuffer data off true with
  | none => none
  | some (hdr, _pic, bufO, shO) =>
      let objFrame := match bufO with
        | some b => b
        | none => []
      let shFrame := match shO with
        | some s => s
        | none => List.replicate (hdr.frameWidth * hdr.frameHeight) 255
      some (⟨hdr.width, hdr.height,
              pasteCanvas hdr.width hdr.height objFrame hdr.frameWidth hdr.frameHeight
                hdr.frameLeft hdr.frameTop⟩,
            ⟨hdr.width, hdr.height,
              pasteCanvas hdr.width hdr.height shFrame hdr.frameWidth hdr.frameHeight
                hdr.frameLeft hdr.frameTop⟩)

/-- Little-endian serialisations. -/
def u32le (v : Nat) : List Nat :=
  [v % 256, v / 256 % 256, v / 65536 % 256, v / 16777216 % 256]

/-- Little-endian u16 serialisation. -/
def u16le (v : Nat) : List Nat :=
  [v % 256, v / 256 % 256]

/-- The run-length scan of `_pack_bitmap` (src/src/RSDef.py lines 826-830,
853-859): starting from run length `len` at position `i` in the row at
`rowBase`, extend while the next pixel equals `code`, stopping once `cap` is
reached (`if length >= cap: break` runs after the increment). -/
def runLen (sh : List Nat) (rowBase code i fw cap : Nat) : Nat → Nat → Nat
  | len, 0 => len
  | len, fuel + 1 =>
      if i + len < fw ∧ sh.getD (rowBase + i + len) 0 = code then
        if cap ≤ len + 1 then len + 1
        else runLen sh rowBase code i fw cap (len + 1) fuel
      else len

/-- One compression-1 packed row (src/src/RSDef.py lines 821-836): emit
`code, length-1` per run, followed by the literal object bytes when
`code == 255`. -/
def c1PackRow (buf sh : List Nat) (fw j : Nat) : Nat → Nat → List Nat
  | _, 0 => []
  | i, fuel + 1 =>
      if i < fw then
        let code := sh.getD (j * fw + i) 0
        let len := runLen sh (j * fw) code i fw 256 1 fw
        (code :: (len - 1) ::
          (if code = 255 then sliceList buf (j * fw + i) len else [])) ++
          c1PackRow buf sh fw j (i + len) fuel
      else []

/-- The compression-1 offset table and opcode stream (src/src/RSDef.py lines
818-839): each u32 table entry records `len(compressed)` accumulated so far
(the offset within the opcode stream, not counting the table itself). -/
def c1Pack (buf sh : List Nat) (fw : Nat) :
    Nat → Nat → List Nat × List Nat → List Nat × List Nat
  | _, 0, acc => acc
  | j, n + 1, acc =>
      c1Pack buf sh fw (j + 1) n
        (acc.1 ++ u32le acc.2.length, acc.2 ++ c1PackRow buf sh fw j 0 fw)

/-- One compression-2/3 packed row (src/src/RSDef.py lines 850-864): the
opcode byte is `(length - 1) | (code << 5)`; `bytearray.append` raises
`ValueError` when that value exceeds 255 (which happens whenever a shadow
byte ≥ 8 such as the 255 no-shadow filler is encoded), modelled as `none`.
Literal object bytes follow when `code >= 7`. -/
def c2PackRow (buf sh : List Nat) (fw j : Nat) : Nat → Nat → Option (List Nat)
  | _, 0 => some []
  | i, fuel + 1 =>
      if i < fw then
        let code := sh.getD (j * fw + i) 0
        let len := runLen sh (j * fw) code i fw 32 1 fw
        let opcode := (len - 1) + 32 * code
        if 255 < opcode then none
        else
          match c2PackRow buf sh fw j (i + len) fuel with
          | none => none
          | some rest =>
              some ((opcode ::
                (if 7 ≤ code then sliceList buf (j * fw + i) len else [])) ++ rest)
      else some []

/-- The compression-2/3 offset table (u16 entries) and opcode stream. -/
def c2Pack (buf sh : List Nat) (fw : Nat) :
    Nat → Nat → List Nat × List Nat → Option (List Nat × List Nat)
  | _, 0, acc => some acc
  | j, n + 1, acc =>
      match c2PackRow buf sh fw j 0 fw with
      | none => none
      | some row =>
          c2Pack buf sh fw (j + 1) n
            (acc.1 ++ u16le acc.2.length, acc.2 ++ row)

/-- `TRSDefMaker._pack_bitmap` (src/src/RSDef.py lines 742-871) for an
already palette-mode image: compute the frame rectangle (bounding box of the
shadow image when given, of the object image otherwise; the full image for
compression 0; rounded to 32-pixel tiles for compression 3), extract the
object pixels, build the shadow bytes (from `spec`, or derived from the
object pixels: values below 8 for compression 1 / below 7 otherwise are
kept, the rest become 255), encode rows per the compression mode, and emit
the 32-byte header (with the original frame rectangle and
`file_size = len(result) - 32`) followed by offset table and opcode stream.
`none` models the `assert` for compression 3 and the `ValueError` of
compression 2/3 opcode bytes above 255. -/
def packBitmap (bmp : Img) (spec : Option Img) (compr : Nat) : Option (List Nat) :=
  let w := bmp.w
  let h := bmp.h
  if compr = 3 ∧ ¬(w % 32 = 0 ∧ h % 32 = 0) then none
  else
    let rect : Nat × Nat × Nat × Nat :=
      if compr ≠ 0 then
        match (match spec with | some s => getbbox s | none => getbbox bmp) with
        | some (l, t, r, b) =>
            if compr = 3 then (l / 32 * 32, t / 32 * 32, (r + 31) / 32 * 32, (b + 31) / 32 * 32)
            else (l, t, r, b)
        | none => (0, 0, 0, 0)
      else (0, 0, w, h)
    let rl := rect.1
    let rt := rect.2.1
    let rr := rect.2.2.1
    let rb := rect.2.2.2
    let fw := rr - rl
    let fh := rb - rt
    let hdrBytes := fun (fileSize : Nat) =>
      u32le fileSize ++ u32le compr ++ u32le w ++ u32le h ++ u32le fw ++ u32le fh ++
        u32le rl ++ u32le rt
    if fw = 0 then some (hdrBytes 0)
    else
      let buf := (List.range (fw * fh)).map fun idx =>
        getPx bmp (rl + idx % fw) (rt + idx / fw)
      let sh := match spec with
        | some s => (List.range (fw * fh)).map fun idx =>
            getPx s (rl + idx % fw) (rt + idx / fw)
        | none => buf.map fun b =>
            if compr = 1 then (if b < 8 then b else 255)
            else (if b < 7 then b else 255)
      let payload : Option (List Nat) :=
        if compr = 0 then some buf
        else if compr = 1 then
          let tc := c1Pack buf sh fw 0 fh ([], [])
          some (tc.1 ++ tc.2)
        else
          let fw2 := if compr = 3 then 32 else fw
          let fh2 := if compr = 3 then fh * (fw / 32) else fh
          match c2Pack buf sh fw2 0 fh2 ([], []) with
          | none => none
          | some tc => some (tc.1 ++ tc.2)
      match payload with
      | none => none
      | some pl => some (hdrBytes pl.length ++ pl)

/-- Concrete compression-1 frame block: 2×1 canvas, full-canvas rectangle,
one row whose line data is a single literal run `{255, 1, 7, 9}` placed right
after the 4-byte row-offset table. -/
def c1RoundFrame : List Nat :=
  [40, 0, 0, 0, 1, 0, 0, 0, 2, 0, 0, 0, 1, 0, 0, 0, 2, 0, 0, 0, 1, 0, 0, 0,
   0, 0, 0, 0, 0, 0, 0, 0] ++ [4, 0, 0, 0] ++ [255, 1, 7, 9]

/-- Concrete compression-2 frame block: 32×1 canvas, full-canvas rectangle,
one row offset (2) and a single opcode byte `(5 << 5) | 15 = 175` — a
16-pixel run of colour 5 — after which the stream ends, leaving the last 16
pixels untouched (transparent). -/
def c2Scenario : List Nat :=
  [0, 0, 0, 0, 2, 0, 0, 0, 32, 0, 0, 0, 1, 0, 0, 0, 32, 0, 0, 0, 1, 0, 0, 0,
   0, 0, 0, 0, 0, 0, 0, 0] ++ [2, 0] ++ [175]

/-- Concrete frame header triggering the legacy quirk: compression 1 with
`frame_w = frame_h = 2` exceeding `full_w = full_h = 1`. -/
def quirkHdr : PicHdr := ⟨0, 1, 1, 1, 2, 2, 9, 9⟩

/-- Serialised frame block whose header is `quirkHdr`. -/
def quirkData : List Nat :=
  [0, 0, 0, 0, 1, 0, 0, 0, 1, 0, 0, 0, 1, 0, 0, 0, 2, 0, 0, 0, 2, 0, 0, 0,
   9, 0, 0, 0, 9, 0, 0, 0]

end RSDef

namespace RSLod

/-- Directory layout options (`TRSMMFilesOptions`, src/src/RSLod.py lines
128-139).  Negative offsets mean the variant does not store that field. -/
structure Options where
  nameSize : Nat
  addrOffset : Nat
  sizeOffset : Int
  unpackedSizeOffset : Int
  packedSizeOffset : Int
  itemSize : Nat
  dataStart : Nat
  addrStart : Nat
  minFileSize : Nat
deriving DecidableEq, Repr

/-- One directory slot of the in-memory `self.data` bytearray, at slot
granularity: the entry name (ASCII bytes, stored without the zero padding
that `get_name` strips), the stored address field and the three size
fields.  Every slice the source takes of `self.data` is slot-aligned, so
this view is faithful. -/
structure Slot where
  name : List Nat
  addr : Nat
  sizeF : Int
  unpF : Int
  pkF : Int
deriving DecidableEq, Repr

instance : Inhabited Slot := ⟨⟨[], 0, 0, 0, 0⟩⟩

/-- `TRSMMFiles` state (src/src/RSLod_part2.py): the physical slot list
(`self.data` holds `slots.length` slot records, which can exceed `count`
after a `rename`), the entry count, the recorded archive size, the
write-on-demand buffer list and the flags. -/
structure MMFiles where
  options : Options
  slots : List Slot
  count : Nat
  fileSize : Nat
  fileBuffers : List (Option (List Nat))
  sorted : Bool
  gamesLod : Bool
  writeOnDemand : Bool
deriving DecidableEq, Repr

/-- ASCII lowercase of one byte (Python `str.lower()` on ASCII names). -/
def lowerByte (b : Nat) : Nat :=
  if 65 ≤ b ∧ b ≤ 90 then b + 32 else b

/-- Lexicographic comparison of lowercased byte strings:
`rs_lod_compare_str` (src/src/RSLod.py lines 198-206). -/
def cmpBytes : List Nat → List Nat → Int
  | [], [] => 0
  | [], _ :: _ => -1
  | _ :: _, [] => 1
  | a :: as, b :: bs =>
      if lowerByte a < lowerByte b then -1
      else if lowerByte b < lowerByte a then 1
      else cmpBytes as bs

/-- `get_name` at slot granularity; indices at or beyond the physical slot
array read an empty name, like the empty byte slice in the source. -/
def getName (m : MMFiles) (i : Nat) : List Nat :=
  (m.slots.getD i default).name

/-- `get_address` (src/src/RSLod_part2.py lines 48-54). -/
def getAddress (m : MMFiles) (i : Nat) : Nat :=
  if i < m.count then (m.slots.getD i default).addr + m.options.addrStart
  else m.fileSize

/-- `get_size` (src/src/RSLod_part2.py lines 56-76; the `on_get_file_size`
hook is `None` for plain `TRSMMFiles`). -/
def getSize (m : MMFiles) (i : Nat) : Int :=
  match m.fileBuffers.getD i none with
  | some b => (b.length : Int)
  | none =>
      if m.options.sizeOffset < 0 then
        let r1 : Int := 0
        let r2 := if r1 = 0 ∧ 0 ≤ m.options.packedSizeOffset then
            (m.slots.getD i default).pkF else r1
        let r3 := if r2 = 0 ∧ 0 ≤ m.options.unpackedSizeOffset then
            (m.slots.getD i default).unpF else r2
        r3
      else (m.slots.getD i default).sizeF

/-- `get_unpacked_size` (lines 78-83). -/
def getUnpackedSize (m : MMFiles) (i : Nat) : Int :=
  if m.options.unpackedSizeOffset < 0 then getSize m i
  else (m.slots.getD i default).unpF

/-- `get_is_packed` (lines 85-94). -/
def getIsPacked (m : MMFiles) (i : Nat) : Bool :=
  if 0 ≤ m.options.packedSizeOffset then (m.slots.getD i default).pkF ≠ 0
  else if 0 ≤ m.options.sizeOffset ∧ 0 ≤ m.options.unpackedSizeOffset then
    (m.slots.getD i default).sizeF ≠ (m.slots.getD i default).unpF
  else false

/-- `_find_file_bin_search` (lines 131-144); `L`, `H` are signed as in the
source (`H` starts at `count - 1`, possibly −1).  Fuel bounds the loop,
`count + 1` is always enough since `H - L` shrinks every step. -/
def binSearch (m : MMFiles) (name : List Nat) : Int → Int → Nat → Bool × Nat
  | L, _, 0 => (false, L.toNat)
  | L, H, fuel + 1 =>
      if L ≤ H then
        let i := (L + H) / 2
        let c := cmpBytes name (getName m i.toNat)
        if c ≤ 0 then
          if c = 0 then (true, i.toNat)
          else binSearch m name L (i - 1) fuel
        else binSearch m name (i + 1) H fuel
      else (false, L.toNat)

/-- The common-prefix length used by the linear search
(`rs_lod_compare_str_with_count`, src/src/RSLod.py lines 209-218). -/
def samePrefixCount : List Nat → List Nat → Nat
  | a :: as, b :: bs =>
      if lowerByte a = lowerByte b then samePrefixCount as bs + 1 else 0
  | _, _ => 0

/-- `_find_file_linear` (lines 112-129), for unsorted archives. -/
def findFileLinear (m : MMFiles) (name : List Nat) : Bool × Nat :=
  let rec go (i : Nat) (fuel : Nat) (bestSame best : Nat) (bestC : Int) : Bool × Nat :=
    match fuel with
    | 0 => (false, best)
    | fuel + 1 =>
        if i < m.count then
          let c := cmpBytes name (getName m i)
          let same := samePrefixCount name (getName m i)
          if c = 0 then (true, i)
          else if bestSame < same ∨ (same = bestSame ∧ 0 < bestC) then
            go (i + 1) fuel same (if 0 < c then i + 1 else i) c
          else go (i + 1) fuel bestSame best bestC
        else (false, best)
  go 0 (m.count + 1) 0 0 1

/-- `find_file` (lines 106-110). -/
def findFile (m : MMFiles) (name : List Nat) : Bool × Nat :=
  if m.sorted = false then findFileLinear m name
  else binSearch m name 0 ((m.count : Int) - 1) (m.count + 1)

/-- ASCII bytes of `.blv` and `.odm` checks: `is_blv_or_odm` (lines
740-743).  `os.path.splitext` yields an empty extension when the whole name
is a single leading-dot filename, hence the extra guard. -/
def isBlvOrOdm (name : List Nat) : Bool :=
  let l := name.map lowerByte
  (decide (l.drop (l.length - 4) = [46, 98, 108, 118]) ||
   decide (l.drop (l.length - 4) = [46, 111, 100, 109])) &&
  !decide (l.length = 4 ∧ l.getD 0 0 = 46)

/-- Scan for the last run start: `i = count - 1; while i >= 0 and not
is_blv_or_odm(get_name(i)): i -= 1` (lines 731-733); returns the signed
index of the last `.blv`/`.odm` entry, −1 when none. -/
def lastBlvScan (m : MMFiles) : Nat → Int
  | 0 => -1
  | n + 1 => if isBlvOrOdm (getName m n) then (n : Int) else lastBlvScan m n

/-- `find_add_index` (lines 727-738). -/
def findAddIndex (m : MMFiles) (name : List Nat) : Bool × Nat :=
  let (found, index) := findFile m name
  if found = false ∧ m.gamesLod = true then
    let i := lastBlvScan m m.count
    if isBlvOrOdm name = false then
      binSearch m name (i + 1) ((m.count : Int) - 1) (m.count + 1)
    else (found, (i + 1).toNat)
  else (found, index)

/-- `remove_data` (lines 718-725): copy the last physical slot into the
vacated slot, then truncate one slot. -/
def removeData (m : MMFiles) (index : Nat) : MMFiles :=
  { m with slots := (m.slots.set index (m.slots.getLastD default)).dropLast }

/-- `do_delete` (lines 381-395): decrement the count, `remove_data`, drop
the write-on-demand buffer at the index (the header write does not change
the directory state). -/
def doDelete (m : MMFiles) (i : Nat) : MMFiles :=
  let m1 := removeData { m with count := m.count - 1 } i
  { m1 with fileBuffers := m1.fileBuffers.eraseIdx i }

/-- `rename` (src/src/RSLod_part2.py lines 397-450).  `none` models the
`check_name` exception for overlong names and the `assert not found`
failure.  A colliding entry (other than the renamed one) is deleted first;
the renamed slot record is captured, the last physical slot is copied over
the vacated slot (with no truncation — the stale last slot stays behind,
`self.data` grows), the new position is searched with the decremented
count, and the captured record is re-inserted there with the new name.  The
pending buffer, when present, is re-inserted at the new position; `if
file_buf:` skips the insertion for `None`. -/
def rename (m : MMFiles) (index : Nat) (newName : List Nat) :
    Option (MMFiles × Nat) :=
  if m.options.nameSize ≤ newName.length then none
  else
    let fr := findFile m newName
    if fr.1 = true ∧ fr.2 = index then some (m, fr.2)
    else
      let m1 := if fr.1 = true then doDelete m fr.2 else m
      if index < m1.slots.length then
        let item := m1.slots.getD index default
        let fileBuf := m1.fileBuffers.getD index none
        let m2 := { m1 with
          slots := m1.slots.set index (m1.slots.getLastD default),
          fileBuffers := m1.fileBuffers.eraseIdx index,
          count := m1.count - 1 }
        let fa := findAddIndex m2 newName
        if fa.1 = true then none
        else
          let r := fa.2
          some ({ m2 with
            slots := m2.slots.insertIdx r { item with name := newName },
            fileBuffers := match fileBuf with
              | some b => m2.fileBuffers.insertIdx r (some b)
              | none => m2.fileBuffers,
            count := m2.count + 1 }, r)
      else
        let m2 := { m1 with
          slots := m1.slots ++ [m1.slots.getLastD default],
          count := m1.count - 1 }
        let fa := findAddIndex m2 newName
        if fa.1 = true then none
        else
          let r := fa.2
          some ({ m2 with
            slots := m2.slots.set r { m2.slots.getD r default with name := newName },
            count := m2.count + 1 }, r)

/-- Case-insensitive sortedness of the live directory entries (the spec's
invariant for archives with the `sorted` flag). -/
def dirSorted (m : MMFiles) : Bool :=
  (List.range (m.count - 1)).all fun i =>
    decide (cmpBytes (getName m i) (getName m (i + 1)) ≤ 0)

/-- Heroes-LOD directory options (src/src/RSLod_part4.py lines 68-76). -/
def heroesOptions : Options := ⟨0x10, 0x10, -1, 0x14, 0x1C, 0x20, 92, 0, 320092⟩

/-- MM Bitmaps-LOD directory options (src/src/RSLod_part4.py lines 59-67),
with archive start 0 for concrete examples. -/
def bitmapsOptions : Options := ⟨0x10, 0x10, -1, 0x14, -1, 0x20, 0, 0, 0⟩

/-- A freshly loaded sorted archive whose entries carry the given names and
address fields. -/
def mkSorted (opt : Options) (entries : List (List Nat × Nat)) : MMFiles :=
  { options := opt,
    slots := entries.map fun e => ⟨e.1, e.2, 0, 0, 0⟩,
    count := entries.length,
    fileSize := 0,
    fileBuffers := entries.map fun _ => none,
    sorted := true,
    gamesLod := false,
    writeOnDemand := false }

/-- Sorted three-entry directory `a, b, c`. -/
def demoABC : MMFiles := mkSorted heroesOptions [([97], 11), ([98], 22), ([99], 33)]

/-- Sorted six-entry directory `a, b, c, d, f, g`. -/
def demoSix : MMFiles :=
  mkSorted heroesOptions
    [([97], 1), ([98], 2), ([99], 3), ([100], 4), ([102], 5), ([103], 6)]

/-- Pad or truncate a file to exactly `n` bytes (`stream.truncate(n)`:
extends with zero bytes or cuts). -/
def truncTo (f : List Nat) (n : Nat) : List Nat :=
  f.take n ++ List.replicate (n - f.length) 0

/-- Grow the file with zero padding so that `n` bytes exist
(`if addr + size > current_size: stream.truncate(addr + size)`). -/
def ensureSize (f : List Nat) (n : Nat) : List Nat :=
  if f.length < n then f ++ List.replicate (n - f.length) 0 else f

/-- Overwrite bytes of `f` starting at `off` (seek + write). -/
def overwriteAt (f : List Nat) (off : Nat) (bytes : List Nat) : List Nat :=
  f.take off ++ bytes ++ f.drop (off + bytes.length)

/-- Seek to `addr`, growing the file when needed, and write `bytes`. -/
def writeAt (f : List Nat) (addr : Nat) (bytes : List Nat) : List Nat :=
  overwriteAt (ensureSize f (addr + bytes.length)) addr bytes

/-- Signed little-endian 32-bit serialisation (`struct.pack('<i', v)`). -/
def i32le (v : Int) : List Nat :=
  RSDef.u32le (v.emod 4294967296).toNat

/-- An entry name as stored in its slot: truncated to the name width and
zero padded. -/
def nameBytes (n : Nat) (name : List Nat) : List Nat :=
  name.take n ++ List.replicate (n - name.length) 0

/-- Byte serialisation of one directory slot per the layout options
(the content of `self.data` for that slot). -/
def slotBytes (opt : Options) (s : Slot) : List Nat :=
  let b0 := List.replicate opt.itemSize 0
  let b1 := overwriteAt b0 0 (nameBytes opt.nameSize s.name)
  let b2 := overwriteAt b1 opt.addrOffset (RSDef.u32le s.addr)
  let b3 := if 0 ≤ opt.sizeOffset then overwriteAt b2 opt.sizeOffset.toNat (i32le s.sizeF)
    else b2
  let b4 := if 0 ≤ opt.unpackedSizeOffset then
      overwriteAt b3 opt.unpackedSizeOffset.toNat (i32le s.unpF)
    else b3
  if 0 ≤ opt.packedSizeOffset then overwriteAt b4 opt.packedSizeOffset.toNat (i32le s.pkF)
  else b4

/-- `write_header` (src/src/RSLod_part2.py lines 619-643): recompute the
archive size (directory end or furthest entry end), truncate the file to
it, let the `on_write_header` hook write the variant header (`hb`; `none`
models the default `None` hook of a bare `TRSMMFiles`), and write
`self.data` — all physical slots — at the data start unless the archive is
empty. -/
def writeHeader (hb : Option (List Nat)) (m : MMFiles) (f : List Nat) :
    MMFiles × List Nat :=
  let sz0 := m.options.dataStart + m.slots.length * m.options.itemSize
  let sz := (List.range m.count).foldl
    (fun acc i => max acc (getAddress m i + (getSize m i).toNat)) sz0
  let m1 := { m with fileSize := sz }
  let f1 := truncTo f sz
  let f2 := match hb with
    | some b => overwriteAt f1 0 b
    | none => f1
  if m.count = 0 then (m1, f2)
  else (m1, overwriteAt f2 m.options.dataStart (m.slots.flatMap (slotBytes m.options)))

/-- `do_write_file` with `force_write = True` (lines 645-671): write the
bytes at `addr`, record `addr - AddrStart` in the slot's address field, and
stretch the recorded archive size past the write. -/
def doWriteFileForce (m : MMFiles) (f : List Nat) (i : Nat) (bytes : List Nat)
    (addr : Nat) : MMFiles × List Nat :=
  let f1 := writeAt f addr bytes
  let m1 := { m with slots := (m.slots.set i
    { m.slots.getD i default with addr := addr - m.options.addrStart }) }
  ({ m1 with fileSize := max m1.fileSize (addr + bytes.length) }, f1)

/-- The bytes `get_as_is_file_stream(i)` + `read(get_size(i))` produce: the
pending buffer when present, otherwise the slice of the backing file at the
entry's address. -/
def entryStoredBytes (m : MMFiles) (f : List Nat) (i : Nat) : List Nat :=
  match m.fileBuffers.getD i none with
  | some b => b
  | none => RSDef.sliceList f (getAddress m i) (getSize m i).toNat

/-- The `for i in range(count)` copy loop of `save_as` (lines 485-490): each
entry's bytes are appended at the current recorded size via
`do_write_file(…, force_write=True)`.  `failAt = some i` injects an I/O
exception when entry `i` is about to be copied; the first component of the
result is the error flag. -/
def saveAsLoop (inFile : List Nat) (failAt : Option Nat) :
    Nat → Nat → MMFiles × List Nat → Bool × MMFiles × List Nat
  | _, 0, st => (false, st)
  | i, n + 1, (m, out) =>
      if failAt = some i then (true, m, out)
      else
        saveAsLoop inFile failAt (i + 1) n
          (doWriteFileForce m out i (entryStoredBytes m inFile i) m.fileSize)

/-- `save_as` (src/src/RSLod_part2.py lines 471-507) to a fresh output file
(different path from the input).  The directory and recorded size are
snapshotted; the recorded size is reset to the directory end; entries are
copied by `saveAsLoop`; on a copy failure the `finally` block restores the
snapshots, the exception propagates (error flag true) and the partial
output file is left in place.  `failAt = some count` injects the exception
during the final `write_header`, which runs after `ok = True`: nothing is
restored then.  On success the buffers are cleared. -/
def saveAs (m : MMFiles) (inFile : List Nat) (hb : Option (List Nat))
    (failAt : Option Nat) : Bool × MMFiles × Option (List Nat) :=
  let oldSize := m.fileSize
  let oldSlots := m.slots
  let m0 := { m with fileSize := (max m.options.minFileSize
    (m.options.dataStart + m.slots.length * m.options.itemSize)) }
  let r := saveAsLoop inFile failAt 0 m0.count (m0, [])
  if r.1 = true then
    (true, { r.2.1 with slots := oldSlots, fileSize := oldSize }, some r.2.2)
  else if failAt = some m0.count then
    (true, r.2.1, some r.2.2)
  else
    let wh := writeHeader hb r.2.1 r.2.2
    (false, { wh.1 with fileBuffers := [] }, some wh.2)

/-- Concrete one-entry archive for the `save_as` counterexample: small
layout options, entry `a` stored at address 20 with unpacked size 5. -/
def c9Demo : MMFiles :=
  { options := ⟨16, 16, -1, 20, 28, 32, 4, 0, 0⟩,
    slots := [⟨[97], 20, 0, 5, 0⟩],
    count := 1,
    fileSize := 30,
    fileBuffers := [none],
    sorted := true,
    gamesLod := false,
    writeOnDemand := false }

/-- Backing file for `c9Demo`. -/
def c9InFile : List Nat := List.replicate 30 7

/-- `int(name[3:])` for palette entry names: decimal digit parse (palette
slots are named `palNNN`; other accepted `int` spellings such as leading
whitespace or signs do not occur in palette names). -/
def parsePalId (s : List Nat) : Option Nat :=
  if s ≠ [] ∧ s.all (fun c => decide (48 ≤ c ∧ c ≤ 57)) then
    some (s.foldl (fun a c => a * 10 + (c - 48)) 0)
  else none

/-- `is_same_palette` (src/src/RSLod_part4.py lines 413-436): the entry must
be exactly `48 + 16 + 768 = 832` bytes; skip the 16-byte prefix, read
`48 + 768` bytes, require the three leading u32 header fields
(`bmp_size`, `data_size`, packed width/height) to be zero, and compare the
trailing 768 bytes with the candidate palette. -/
def isSamePalette (m : MMFiles) (f : List Nat) (palEntries : List Nat) (i : Nat) : Bool :=
  if getSize m i ≠ (832 : Int) then false
  else
    let palFile := RSDef.sliceList (entryStoredBytes m f i) 16 (48 + 768)
    if palFile.length < 48 + 768 then false
    else if RSDef.readU32 palFile 0 ≠ 0 ∨ RSDef.readU32 palFile 4 ≠ 0 ∨
        RSDef.readU32 palFile 8 ≠ 0 then false
    else decide (RSDef.sliceList palFile 48 768 = palEntries)

/-- Lower bound of the palette scan: `find_file('pal')`, reset to 0 when not
found (src/src/RSLod_part4.py lines 369-372). -/
def palScanLo (m : MMFiles) : Nat :=
  let f1 := findFile m [112, 97, 108]
  if f1.1 = true then f1.2 else 0

/-- Upper bound of the palette scan: `find_file('pam')`, reset to `count`
when not found. -/
def palScanHi (m : MMFiles) : Nat :=
  let f2 := findFile m [112, 97, 109]
  if f2.1 = true then f2.2 else m.count

/-- The scan loop of `find_same_palette` (src/src/RSLod_part4.py lines
380-411) with the three first-fit band counters `(fr3, fr4, fr5)`; on
termination without a hit it returns the band result. -/
def findSamePaletteLoop (m : MMFiles) (f palEntries : List Nat) :
    Nat → Nat → Nat × Nat × Nat → Bool × Nat
  | _, 0, frs =>
      (false, if frs.1 < 1000 then frs.1 else if frs.2.1 < 10000 then frs.2.1 else frs.2.2)
  | i, n + 1, frs =>
      let name := getName m i
      if ¬((name.map lowerByte).take 3 = [112, 97, 108]) then
        findSamePaletteLoop m f palEntries (i + 1) n frs
      else
        match parsePalId (name.drop 3) with
        | none => findSamePaletteLoop m f palEntries (i + 1) n frs
        | some j =>
            if j = 0 ∨ 32767 < j then findSamePaletteLoop m f palEntries (i + 1) n frs
            else
              let frs2 := if j ≤ frs.1 then (j + 1, frs.2.1, frs.2.2)
                else if j ≤ frs.2.1 then (frs.1, j + 1, frs.2.2)
                else if j ≤ frs.2.2 then (frs.1, frs.2.1, j + 1)
                else frs
              if isSamePalette m f palEntries i then (true, j)
              else findSamePaletteLoop m f palEntries (i + 1) n frs2

/-- `TRSLod.find_same_palette` (src/src/RSLod_part4.py lines 364-411);
`isBitmaps` models the `version != RSLodBitmaps` early return. -/
def findSamePalette (isBitmaps : Bool) (m : MMFiles) (f palEntries : List Nat) :
    Bool × Nat :=
  if isBitmaps = false then (false, 0)
  else
    findSamePaletteLoop m f palEntries (palScanLo m) (palScanHi m - palScanLo m)
      (1, 1000, 10000)

/-- Specification predicate: entry `i` is a palette hit for `palEntries` —
its lowercased name starts with `pal`, the rest parses as an id in
1..0x7FFF, and `is_same_palette` accepts it. -/
def palMatch (m : MMFiles) (f palEntries : List Nat) (i : Nat) : Bool :=
  (decide (((getName m i).map lowerByte).take 3 = [112, 97, 108])) &&
  (match parsePalId ((getName m i).drop 3) with
   | some j => decide (j ≠ 0 ∧ j ≤ 32767) && isSamePalette m f palEntries i
   | none => false)

/-- The parsed palette id of entry `i`. -/
def palIdOf (m : MMFiles) (i : Nat) : Nat :=
  (parsePalId ((getName m i).drop 3)).getD 0

/-- Palette bytes for the C5 counterexample. -/
def c5Pal : List Nat := List.replicate 768 1

/-- A well-formed non-matching palette file: 16-byte prefix, zero header,
trailing bytes all 2. -/
def c5ContentA : List Nat :=
  List.replicate 16 0 ++ List.replicate 48 0 ++ List.replicate 768 2

/-- A file whose size and trailing 768 bytes satisfy the claim's hit
condition but whose `bmp_size` header field is nonzero. -/
def c5ContentB : List Nat :=
  List.replicate 16 0 ++ ([7, 0, 0, 0] ++ List.replicate 44 0) ++ c5Pal

/-- Backing file for the C5 counterexample archive. -/
def c5File : List Nat := c5ContentA ++ c5ContentB

/-- Counterexample archive: entries `pal1, pal10, pal2, …, pal9` in sorted
order; all point at the well-formed non-matching palette except `pal7`,
which points at `c5ContentB`. -/
def c5Demo : MMFiles :=
  { options := bitmapsOptions,
    slots :=
      [⟨[112, 97, 108, 49], 0, 0, 832, 0⟩,
       ⟨[112, 97, 108, 49, 48], 0, 0, 832, 0⟩,
       ⟨[112, 97, 108, 50], 0, 0, 832, 0⟩,
       ⟨[112, 97, 108, 51], 0, 0, 832, 0⟩,
       ⟨[112, 97, 108, 52], 0, 0, 832, 0⟩,
       ⟨[112, 97, 108, 53], 0, 0, 832, 0⟩,
       ⟨[112, 97, 108, 54], 0, 0, 832, 0⟩,
       ⟨[112, 97, 108, 55], 832, 0, 832, 0⟩,
       ⟨[112, 97, 108, 56], 0, 0, 832, 0⟩,
       ⟨[112, 97, 108, 57], 0, 0, 832, 0⟩],
    count := 10,
    fileSize := 1664,
    fileBuffers := [none, none, none, none, none, none, none, none, none, none],
    sorted := true,
    gamesLod := false,
    writeOnDemand := false }

/-- A matching palette file for the C5 witness: 16-byte prefix, zero header,
trailing bytes equal to `c5Pal`. -/
def c5HitFile : List Nat :=
  List.replicate 16 0 ++ List.replicate 48 0 ++ c5Pal

/-- A one-entry Bitmaps archive whose single entry `pal3` is a well-formed
matching palette file. -/
def c5HitDemo : MMFiles :=
  { options := bitmapsOptions,
    slots := [⟨[112, 97, 108, 51], 0, 0, 832, 0⟩],
    count := 1,
    fileSize := 832,
    fileBuffers := [none],
    sorted := true,
    gamesLod := false,
    writeOnDemand := false }

/-- `do_write_file` (src/src/RSLod_part2.py lines 645-671) with
`force_write = False`: with write-on-demand the bytes go to the pending
buffer list (padded with `None` up to the index), otherwise they are
written into the backing file at `addr`; in both cases the slot's address
field records `addr - AddrStart` and the recorded archive size is
stretched past the end of the write. -/
def doWriteFile (m : MMFiles) (f : List Nat) (i : Nat) (bytes : List Nat)
    (addr : Nat) : MMFiles × List Nat :=
  let st :=
    if m.writeOnDemand = true then
      let fbs := if m.fileBuffers.length ≤ i then
          m.fileBuffers ++ List.replicate (i + 1 - m.fileBuffers.length) none
        else m.fileBuffers
      ({ m with fileBuffers := fbs.set i (some bytes) }, f)
    else (m, writeAt f addr bytes)
  let m1 := { st.1 with slots := (st.1.slots.set i
    { st.1.slots.getD i default with addr := addr - m.options.addrStart }) }
  ({ m1 with fileSize := max m1.fileSize (addr + bytes.length) }, st.2)

/-- `do_move_file` (lines 673-684): rewrite the pending buffer, when
present, or the stored bytes, at the new address. -/
def doMoveFile (m : MMFiles) (f : List Nat) (i : Nat) (addr : Nat) :
    MMFiles × List Nat :=
  match m.fileBuffers.getD i none with
  | some b => doWriteFile m f i b addr
  | none =>
      doWriteFile m f i (RSDef.sliceList f (getAddress m i) (getSize m i).toNat)
        addr

/-- `can_expand` (lines 686-703). -/
def canExpand (m : MMFiles) (index : Nat) (newSize : Nat) : Bool :=
  let addr := getAddress m index
  let sz := getSize m index
  if (newSize : Int) ≤ sz ∨ (m.fileSize : Int) ≤ (addr : Int) + sz then true
  else if index + 1 < m.count then
    let nextAddr := getAddress m (index + 1)
    decide (addr ≤ nextAddr ∧ newSize ≤ nextAddr - addr)
  else
    (List.range m.count).all fun i =>
      !decide (addr ≤ getAddress m i ∧ getAddress m i - addr < newSize)

/-- The packing block of `TRSMMFiles.add` (src/src/RSLod_part2.py lines
299-320): returns the bytes handed to `do_write_file` together with the
recorded unpacked and packed sizes (the final `size` is always the length
of the returned bytes).  `deflate` stands for
`zlib.compress(·, compression)`; a caller-supplied nonnegative
`unpackedSize` bypasses the compression attempt and records
`pk_size = size`. -/
def addPack (opt : Options) (deflate : List Nat → List Nat) (payload : List Nat)
    (compression : Nat) (unpackedSize : Int) : List Nat × Int × Int :=
  if 0 ≤ unpackedSize then (payload, unpackedSize, (payload.length : Int))
  else if compression ≠ 0 ∧ 64 < payload.length ∧
      (0 ≤ opt.packedSizeOffset ∨ 0 ≤ opt.unpackedSizeOffset) then
    let compressed := deflate payload
    if compressed.length < payload.length then
      (compressed, (payload.length : Int), (compressed.length : Int))
    else (payload, (payload.length : Int), 0)
  else (payload, (payload.length : Int), 0)

/-- The relocation pass of `add` for a new entry (lines 335-338): entries
stored below the grown directory end are moved to the end of the file. -/
def addRelocate (addrLimit : Nat) (st : MMFiles × List Nat) (i : Nat) :
    MMFiles × List Nat :=
  if getAddress st.1 i < addrLimit then doMoveFile st.1 st.2 i st.1.fileSize
  else st

/-- The write phase of `add` (lines 326-344): an existing entry is
overwritten in place when it can expand there, at the file end otherwise; a
new entry first relocates the files that overlap the grown directory, then
a zero slot and a `None` buffer are inserted, the recorded size is
stretched past the directory end and the bytes are appended there. -/
def addWrite (m : MMFiles) (f : List Nat) (fr : Bool × Nat) (bytes : List Nat) :
    MMFiles × List Nat :=
  if fr.1 = true then
    if canExpand m fr.2 bytes.length = true then
      doWriteFile m f fr.2 bytes (getAddress m fr.2)
    else doWriteFile m f fr.2 bytes m.fileSize
  else
    let addrLimit := m.options.dataStart + (m.count + 1) * m.options.itemSize
    let st1 := (List.range m.count).foldl (addRelocate addrLimit) (m, f)
    let m1 := { st1.1 with
      count := st1.1.count + 1,
      slots := st1.1.slots.insertIdx fr.2 default,
      fileBuffers := st1.1.fileBuffers.insertIdx fr.2 none }
    let m2 := { m1 with
      fileSize := (max m1.fileSize
        (m.options.dataStart + m1.slots.length * m.options.itemSize)) }
    doWriteFile m2 st1.2 fr.2 bytes m2.fileSize

/-- The field-recording step of `add` (lines 346-358): the slot gets the
truncated name and whichever of the three size fields the layout has. -/
def addFields (opt : Options) (s0 : Slot) (name : List Nat) (size unp pk : Int) :
    Slot :=
  let s1 := { s0 with name := name.take opt.nameSize }
  let s2 := if 0 ≤ opt.sizeOffset then { s1 with sizeF := size } else s1
  let s3 := if 0 ≤ opt.unpackedSizeOffset then { s2 with unpF := unp } else s2
  if 0 ≤ opt.packedSizeOffset then { s3 with pkF := pk } else s3

/-- `TRSMMFiles.add` (src/src/RSLod_part2.py lines 290-370) for a payload
given as bytes (`size` < 0 in the source reads the stream length, which is
`payload.length` here): pack per `addPack`, locate the slot via
`find_add_index`, write per `addWrite`, record the slot fields per
`addFields`, and write the header unless the archive is write-on-demand
(`hb` is the variant header hook).  `none` models the `check_name`
exception for overlong names. -/
def add (m : MMFiles) (f : List Nat) (hb : Option (List Nat))
    (deflate : List Nat → List Nat) (name payload : List Nat)
    (compression : Nat) (unpackedSize : Int) :
    Option (MMFiles × List Nat × Nat) :=
  if m.options.nameSize ≤ name.length then none
  else
    let pk := addPack m.options deflate payload compression unpackedSize
    let fr := findAddIndex m name
    let st := addWrite m f fr pk.1
    let s4 := addFields m.options (st.1.slots.getD fr.2 default) name
      (pk.1.length : Int) pk.2.1 pk.2.2
    let m3 := { st.1 with slots := st.1.slots.set fr.2 s4 }
    if m.writeOnDemand = false then
      let wh := writeHeader hb m3 st.2
      some (wh.1, wh.2, fr.2)
    else some (m3, st.2, fr.2)

/-- `pack_bitmap` (src/src/RSLod_graphics.py lines 235-293) at the level of
its compression decision: the base pixel bytes and the mipmap bytes are
concatenated and deflated at level 6 (`deflate` stands for
`zlib.compress(·, 6)`); the compressed form is kept only when strictly
smaller, recording the raw length as `unp_size`, and a stored-raw result
records `unp_size = 0`.  The result is the stored data, the recorded
`unp_size`, the recorded `data_size` and the recorded
`bmp_size = 32 + data_size + 768`. -/
def packBitmapLod (deflate : List Nat → List Nat)
    (pixelData mipmapData : List Nat) : List Nat × Nat × Nat × Nat :=
  let allData := pixelData ++ mipmapData
  let compressed := deflate allData
  if compressed.length < allData.length then
    (compressed, allData.length, compressed.length,
     32 + compressed.length + 768)
  else (allData, 0, allData.length, 32 + allData.length + 768)

/-- A concrete stand-in for `zlib.compress` that shrinks its input: the C8
witness instantiation. -/
def c8Deflate (l : List Nat) : List Nat := l.take 32

/-- A 65-byte payload, just past the 64-byte compression gate. -/
def c8Payload : List Nat := List.replicate 65 5

/-- A 10-byte payload, below the 64-byte compression gate. -/
def c10Payload : List Nat := List.replicate 10 5

end RSLod

namespace MMArchiveCLI


lemma mostRepeatedFrame_eq_foldl (frames : List String) :
    mostRepeatedFrame frames = ((frameCounts frames).foldl mrStep (0, 0)).2 := rfl

lemma lookupIdxs_addOccurrence (acc : List (String × List Nat)) (f : String) (i : Nat)
    (name : String) :
    lookupIdxs (addOccurrence acc f i) name =
      if f = name then lookupIdxs acc name ++ [i] else lookupIdxs acc name := by
  induction acc with
  | nil =>
      by_cases h : f = name <;>
        simp [addOccurrence, lookupIdxs, h]
  | cons kv rest ih =>
      obtain ⟨k, v⟩ := kv
      by_cases hkf : k = f
      · subst hkf
        by_cases hkn : k = name <;>
          simp [addOccurrence, lookupIdxs, hkn]
      · by_cases hkn : k = name
        · have hfn : ¬f = name := fun h => hkf (h ▸ hkn)
          have hnf : ¬name = f := fun h => hfn h.symm
          simp [addOccurrence, lookupIdxs, hkf, hkn, hfn, hnf]
        · simp only [addOccurrence, if_neg hkf]
          simpa [lookupIdxs, hkn] using ih

lemma frameCountsAux_lookup (fs : List String) :
    ∀ (i0 : Nat) (acc : List (String × List Nat)) (name : String),
    lookupIdxs (frameCountsAux i0 fs acc) name =
      lookupIdxs acc name ++ occIdxs i0 fs name := by
  induction fs with
  | nil => intro i0 acc name; simp [frameCountsAux, occIdxs]
  | cons f fs ih =>
      intro i0 acc name
      simp only [frameCountsAux, occIdxs]
      rw [ih, lookupIdxs_addOccurrence]
      by_cases h : f = name <;> simp [h]

lemma frameCounts_lookup (frames : List String) (name : String) :
    lookupIdxs (frameCounts frames) name = occIdxs 0 frames name := by
  simpa [lookupIdxs] using frameCountsAux_lookup frames 0 [] name

lemma addOccurrence_keys (acc : List (String × List Nat)) (f : String) (i : Nat) :
    (addOccurrence acc f i).map Prod.fst =
      if f ∈ acc.map Prod.fst then acc.map Prod.fst else acc.map Prod.fst ++ [f] := by
  induction acc with
  | nil => simp [addOccurrence]
  | cons kv rest ih =>
      obtain ⟨k, v⟩ := kv
      by_cases hkf : k = f
      · subst hkf; simp [addOccurrence]
      · have hne : ¬f = k := fun h => hkf h.symm
        by_cases hm : f ∈ rest.map Prod.fst <;>
          simp [addOccurrence, hkf, hm, ih, hne]

lemma frameCountsAux_keys_nodup (fs : List String) :
    ∀ (i0 : Nat) (acc : List (String × List Nat)),
    (acc.map Prod.fst).Nodup → ((frameCountsAux i0 fs acc).map Prod.fst).Nodup := by
  induction fs with
  | nil => intro i0 acc h; simpa [frameCountsAux] using h
  | cons f fs ih =>
      intro i0 acc h
      refine ih _ _ ?_
      rw [addOccurrence_keys]
      by_cases hm : f ∈ acc.map Prod.fst <;> simp [hm, h, List.nodup_append]

lemma frameCounts_keys_nodup (frames : List String) :
    ((frameCounts frames).map Prod.fst).Nodup :=
  frameCountsAux_keys_nodup frames 0 [] (by simp)

lemma lookupIdxs_of_mem (acc : List (String × List Nat))
    (hnd : (acc.map Prod.fst).Nodup) (kv : String × List Nat) (hm : kv ∈ acc) :
    lookupIdxs acc kv.1 = kv.2 := by
  induction acc with
  | nil => cases hm
  | cons hd rest ih =>
      rcases List.mem_cons.1 hm with hm | hm
      · subst hm; simp [lookupIdxs]
      · have hne : hd.1 ≠ kv.1 := by
          intro h
          have : kv.1 ∈ rest.map Prod.fst := List.mem_map.2 ⟨kv, hm, rfl⟩
          rw [List.map_cons, List.nodup_cons] at hnd
          exact hnd.1 (h ▸ this)
        have := ih (by rw [List.map_cons, List.nodup_cons] at hnd; exact hnd.2) hm
        simpa [lookupIdxs, hne] using this

lemma mem_frameCounts_val (frames : List String) (kv : String × List Nat)
    (hm : kv ∈ frameCounts frames) : kv.2 = occIdxs 0 frames kv.1 := by
  rw [← frameCounts_lookup]
  exact (lookupIdxs_of_mem _ (frameCounts_keys_nodup frames) kv hm).symm

lemma lookupIdxs_ne_nil_mem (acc : List (String × List Nat)) (name : String)
    (h : lookupIdxs acc name ≠ []) : (name, lookupIdxs acc name) ∈ acc := by
  induction acc with
  | nil => simp [lookupIdxs] at h
  | cons hd rest ih =>
      obtain ⟨k, v⟩ := hd
      by_cases hk : k = name
      · subst hk
        simp [lookupIdxs]
      · simp only [lookupIdxs, if_neg hk] at h ⊢
        exact List.mem_cons_of_mem _ (ih h)

lemma occIdxs_length (fs : List String) :
    ∀ (i0 : Nat) (name : String), (occIdxs i0 fs name).length = fs.count name := by
  induction fs with
  | nil => intro i0 name; simp [occIdxs]
  | cons f fs ih =>
      intro i0 name
      by_cases h : f = name <;>
        simp [occIdxs, h, ih, List.count_cons]

lemma occIdxs_mem_spec (fs : List String) :
    ∀ (i0 : Nat) (name : String) (e : Nat), e ∈ occIdxs i0 fs name →
      i0 ≤ e ∧ e - i0 < fs.length ∧ fs.getD (e - i0) "" = name := by
  induction fs with
  | nil => intro i0 name e h; simp [occIdxs] at h
  | cons f fs ih =>
      intro i0 name e h
      by_cases hf : f = name
      · rw [occIdxs, if_pos hf] at h
        rcases List.mem_cons.1 h with rfl | h
        · simp [hf]
        · obtain ⟨h1, h2, h3⟩ := ih (i0 + 1) name e h
          have hi0 : i0 ≤ e := le_trans (Nat.le_succ i0) h1
          refine ⟨hi0, ?_, ?_⟩
          · simp only [List.length_cons]; omega
          · have : e - i0 = (e - (i0 + 1)) + 1 := by omega
            simpa [this] using h3
      · rw [occIdxs, if_neg hf] at h
        obtain ⟨h1, h2, h3⟩ := ih (i0 + 1) name e h
        have hi0 : i0 ≤ e := le_trans (Nat.le_succ i0) h1
        refine ⟨hi0, ?_, ?_⟩
        · simp only [List.length_cons]; omega
        · have : e - i0 = (e - (i0 + 1)) + 1 := by omega
          simpa [this] using h3

lemma occIdxs_ne_nil (fs : List String) :
    ∀ (i0 : Nat) (name : String), name ∈ fs → occIdxs i0 fs name ≠ [] := by
  induction fs with
  | nil => intro i0 name h; cases h
  | cons f fs ih =>
      intro i0 name h
      by_cases hf : f = name
      · simp [occIdxs, hf]
      · rcases List.mem_cons.1 h with h | h
        · exact absurd h.symm hf
        · simpa [occIdxs, hf] using ih (i0 + 1) name h

lemma occIdxs_head_le (fs : List String) :
    ∀ (i0 : Nat) (name : String) (j : Nat), j < fs.length → fs.getD j "" = name →
      (occIdxs i0 fs name).headD 0 ≤ i0 + j := by
  induction fs with
  | nil => intro i0 name j hj; simp at hj
  | cons f fs ih =>
      intro i0 name j hj hfj
      by_cases hf : f = name
      · simp [occIdxs, hf]
      · cases j with
        | zero => exact absurd hfj hf
        | succ j =>
            rw [occIdxs, if_neg hf]
            have := ih (i0 + 1) name j (by simpa using hj) (by simpa using hfj)
            omega

lemma le_foldr_max_of_mem (l : List Nat) (x : Nat) (h : x ∈ l) : x ≤ l.foldr max 0 := by
  induction l with
  | nil => cases h
  | cons a l ih =>
      rcases List.mem_cons.1 h with rfl | h
      · exact le_max_left _ _
      · exact le_trans (ih h) (le_max_right _ _)

lemma foldr_max_le (l : List Nat) (c : Nat) (h : ∀ x ∈ l, x ≤ c) : l.foldr max 0 ≤ c := by
  induction l with
  | nil => simp
  | cons a l ih =>
      simp only [List.foldr_cons]
      exact max_le (h a (by simp)) (ih fun x hx => h x (List.mem_cons_of_mem _ hx))

lemma foldl_mrStep_const (L : List (String × List Nat)) :
    ∀ (b : Nat × Nat), (∀ kv ∈ L, kv.2.length ≤ b.1) → L.foldl mrStep b = b := by
  induction L with
  | nil => intro b _; rfl
  | cons a L ih =>
      intro b h
      have ha : ¬a.2.length > b.1 := not_lt.2 (h a (by simp))
      simp only [List.foldl_cons, mrStep, if_neg ha]
      exact ih b fun kv hkv => h kv (List.mem_cons_of_mem _ hkv)

lemma foldl_mrStep_argmax (L : List (String × List Nat)) :
    ∀ (b : Nat × Nat), (∃ kv ∈ L, b.1 < kv.2.length) →
    ∃ k, k < L.length ∧
      L.foldl mrStep b =
        ((L.getD k ("", [])).2.length, (L.getD k ("", [])).2.headD 0) ∧
      b.1 < (L.getD k ("", [])).2.length ∧
      (∀ j, j < k → (L.getD j ("", [])).2.length < (L.getD k ("", [])).2.length) ∧
      (∀ kv ∈ L, kv.2.length ≤ (L.getD k ("", [])).2.length) := by
  induction L with
  | nil => intro b h; simp at h
  | cons a L ih =>
      intro b h
      by_cases ha : b.1 < a.2.length
      · by_cases hrest : ∃ kv ∈ L, a.2.length < kv.2.length
        · obtain ⟨k, hk, heq, hgt, hfirst, hmax⟩ := ih (a.2.length, a.2.headD 0) hrest
          refine ⟨k + 1, by simpa using Nat.succ_lt_succ hk, ?_, ?_, ?_, ?_⟩
          · simpa [mrStep, if_pos ha] using heq
          · simpa using lt_trans ha hgt
          · intro j hj
            cases j with
            | zero => simpa using hgt
            | succ j => simpa using hfirst j (Nat.lt_of_succ_lt_succ hj)
          · intro kv hkv
            rcases List.mem_cons.1 hkv with rfl | hkv
            · simpa using le_of_lt hgt
            · simpa using hmax kv hkv
        · push_neg at hrest
          refine ⟨0, by simp, ?_, by simpa using ha, by simp, ?_⟩
          · simp only [List.foldl_cons, mrStep, if_pos ha, List.getD_cons_zero]
            exact foldl_mrStep_const L _ hrest
          · intro kv hkv
            rcases List.mem_cons.1 hkv with rfl | hkv
            · simp
            · simpa using hrest kv hkv
      · have h' : ∃ kv ∈ L, b.1 < kv.2.length := by
          obtain ⟨kv, hkv, hlt⟩ := h
          rcases List.mem_cons.1 hkv with rfl | hkv
          · exact absurd hlt ha
          · exact ⟨kv, hkv, hlt⟩
        obtain ⟨k, hk, heq, hgt, hfirst, hmax⟩ := ih b h'
        refine ⟨k + 1, by simpa using Nat.succ_lt_succ hk, ?_, by simpa using hgt, ?_, ?_⟩
        · simpa [mrStep, if_neg ha] using heq
        · intro j hj
          cases j with
          | zero =>
              simp only [List.getD_cons_zero, List.getD_cons_succ]
              exact lt_of_le_of_lt (not_lt.1 ha) hgt
          | succ j => simpa using hfirst j (Nat.lt_of_succ_lt_succ hj)
        · intro kv hkv
          rcases List.mem_cons.1 hkv with rfl | hkv
          · simpa using le_trans (not_lt.1 ha) (le_of_lt hgt)
          · simpa using hmax kv hkv

lemma headD_mem (l : List Nat) (h : l ≠ []) (d : Nat) : l.headD d ∈ l := by
  cases l with
  | nil => exact absurd rfl h
  | cons a l => simp

lemma headD_append (v : List Nat) (h : v ≠ []) (w : List Nat) (d : Nat) :
    (v ++ w).headD d = v.headD d := by
  cases v with
  | nil => exact absurd rfl h
  | cons a v => simp

lemma mem_addOccurrence (acc : List (String × List Nat)) (f : String) (i : Nat)
    (kv : String × List Nat) (h : kv ∈ addOccurrence acc f i) :
    kv ∈ acc ∨ (∃ v, (f, v) ∈ acc ∧ kv = (f, v ++ [i])) ∨ kv = (f, [i]) := by
  induction acc with
  | nil =>
      right; right
      simpa [addOccurrence] using h
  | cons hd rest ih =>
      obtain ⟨k, v⟩ := hd
      by_cases hkf : k = f
      · subst hkf
        rw [addOccurrence, if_pos rfl] at h
        rcases List.mem_cons.1 h with rfl | h
        · exact Or.inr (Or.inl ⟨v, by simp⟩)
        · exact Or.inl (List.mem_cons_of_mem _ h)
      · rw [addOccurrence, if_neg hkf] at h
        rcases List.mem_cons.1 h with rfl | h
        · exact Or.inl (by simp)
        · rcases ih h with h1 | ⟨v0, hv0, rfl⟩ | h1
          · exact Or.inl (List.mem_cons_of_mem _ h1)
          · exact Or.inr (Or.inl ⟨v0, List.mem_cons_of_mem _ hv0, rfl⟩)
          · exact Or.inr (Or.inr h1)

lemma addOccurrence_headInv (acc : List (String × List Nat)) (f : String) (i : Nat)
    (hpw : List.Pairwise headLt acc)
    (hinv : ∀ kv ∈ acc, kv.2 ≠ [] ∧ kv.2.headD 0 < i) :
    List.Pairwise headLt (addOccurrence acc f i) ∧
      ∀ kv ∈ addOccurrence acc f i, kv.2 ≠ [] ∧ kv.2.headD 0 < i + 1 := by
  induction acc with
  | nil =>
      constructor
      · simp [addOccurrence]
      · intro kv hkv
        simp only [addOccurrence] at hkv
        rcases List.mem_cons.1 hkv with rfl | hkv
        · simp
        · cases hkv
  | cons hd rest ih =>
      obtain ⟨k, v⟩ := hd
      rw [List.pairwise_cons] at hpw
      obtain ⟨hhd, hrest⟩ := hpw
      have hvne : v ≠ [] := (hinv (k, v) (by simp)).1
      have hvlt : v.headD 0 < i := (hinv (k, v) (by simp)).2
      by_cases hkf : k = f
      · subst hkf
        rw [addOccurrence, if_pos rfl]
        constructor
        · rw [List.pairwise_cons]
          refine ⟨fun b hb => ?_, hrest⟩
          have h0 := hhd b hb
          simp only [headLt] at h0 ⊢
          rw [headD_append v hvne]
          exact h0
        · intro kv hkv
          rcases List.mem_cons.1 hkv with rfl | hkv
          · refine ⟨by simp, ?_⟩
            show (v ++ [i]).headD 0 < i + 1
            rw [headD_append v hvne]
            exact Nat.lt_succ_of_lt hvlt
          · obtain ⟨h1, h2⟩ := hinv kv (List.mem_cons_of_mem _ hkv)
            exact ⟨h1, Nat.lt_succ_of_lt h2⟩
      · rw [addOccurrence, if_neg hkf]
        obtain ⟨ihpw, ihinv⟩ := ih hrest
          (fun kv hkv => hinv kv (List.mem_cons_of_mem _ hkv))
        constructor
        · rw [List.pairwise_cons]
          refine ⟨fun b hb => ?_, ihpw⟩
          rcases mem_addOccurrence rest f i b hb with h1 | ⟨v0, hv0, rfl⟩ | rfl
          · exact hhd b h1
          · have hv0ne : v0 ≠ [] := (hinv (f, v0) (List.mem_cons_of_mem _ hv0)).1
            have h0 := hhd (f, v0) hv0
            simp only [headLt] at h0 ⊢
            rw [headD_append v0 hv0ne]
            exact h0
          · simpa [headLt] using hvlt
        · intro kv hkv
          rcases List.mem_cons.1 hkv with rfl | hkv
          · exact ⟨hvne, Nat.lt_succ_of_lt hvlt⟩
          · exact ihinv kv hkv

lemma frameCountsAux_headInv (fs : List String) :
    ∀ (i0 : Nat) (acc : List (String × List Nat)),
    List.Pairwise headLt acc →
    (∀ kv ∈ acc, kv.2 ≠ [] ∧ kv.2.headD 0 < i0) →
    List.Pairwise headLt (frameCountsAux i0 fs acc) ∧
      ∀ kv ∈ frameCountsAux i0 fs acc, kv.2 ≠ [] ∧ kv.2.headD 0 < i0 + fs.length := by
  induction fs with
  | nil =>
      intro i0 acc hpw hinv
      refine ⟨hpw, fun kv hkv => ?_⟩
      obtain ⟨h1, h2⟩ := hinv kv hkv
      exact ⟨h1, by simpa using h2⟩
  | cons f fs ih =>
      intro i0 acc hpw hinv
      obtain ⟨hpw1, hinv1⟩ := addOccurrence_headInv acc f i0 hpw hinv
      obtain ⟨hpw2, hinv2⟩ := ih (i0 + 1) _ hpw1 hinv1
      refine ⟨hpw2, fun kv hkv => ?_⟩
      obtain ⟨h1, h2⟩ := hinv2 kv hkv
      refine ⟨h1, ?_⟩
      simp only [List.length_cons]
      omega

lemma frameCounts_pairwise (frames : List String) :
    List.Pairwise headLt (frameCounts frames) := by
  exact (frameCountsAux_headInv frames 0 [] (by simp) (by simp)).1

lemma frameCounts_val_ne_nil (frames : List String) (kv : String × List Nat)
    (hm : kv ∈ frameCounts frames) : kv.2 ≠ [] := by
  exact ((frameCountsAux_headInv frames 0 [] (by simp) (by simp)).2 kv hm).1

lemma getD_mem_frameCounts (frames : List String) (k : Nat)
    (hk : k < (frameCounts frames).length) :
    (frameCounts frames).getD k ("", []) ∈ frameCounts frames := by
  rw [List.getD_eq_getElem _ _ hk]
  exact List.getElem_mem hk

lemma entry_of_mem_frames (frames : List String) (name : String) (h : name ∈ frames) :
    (name, occIdxs 0 frames name) ∈ frameCounts frames := by
  have hne := occIdxs_ne_nil frames 0 name h
  have := lookupIdxs_ne_nil_mem (frameCounts frames) name
    (by rw [frameCounts_lookup]; exact hne)
  rwa [frameCounts_lookup] at this

/-- Characterization of `most_repeated_frame`: it returns the earliest index
whose frame name attains the maximum multiplicity. -/
theorem mostRepeatedFrame_spec (frames : List String) (hne : frames ≠ []) :
    mostRepeatedFrame frames < frames.length ∧
    frames.count (frames.getD (mostRepeatedFrame frames) "") = maxMult frames ∧
    ∀ i, i < mostRepeatedFrame frames →
      frames.count (frames.getD i "") < maxMult frames := by
  obtain ⟨f0, frames0, rfl⟩ := List.exists_cons_of_ne_nil hne
  set frames := f0 :: frames0 with hframes
  have hf0 : f0 ∈ frames := by rw [hframes]; simp
  have hmem0 : (f0, occIdxs 0 frames f0) ∈ frameCounts frames :=
    entry_of_mem_frames frames f0 hf0
  have hlen0 : 0 < (occIdxs 0 frames f0).length :=
    List.length_pos.2 (occIdxs_ne_nil frames 0 f0 hf0)
  obtain ⟨k, hk, heq, hgt, hfirst, hmax⟩ :=
    foldl_mrStep_argmax (frameCounts frames) (0, 0) ⟨_, hmem0, hlen0⟩
  set kvk := (frameCounts frames).getD k ("", []) with hkvk
  have hkmem : kvk ∈ frameCounts frames := getD_mem_frameCounts frames k hk
  have hval : kvk.2 = occIdxs 0 frames kvk.1 := mem_frameCounts_val frames kvk hkmem
  have hvne : kvk.2 ≠ [] := List.ne_nil_of_length_pos hgt
  have hp : mostRepeatedFrame frames = kvk.2.headD 0 := by
    rw [mostRepeatedFrame_eq_foldl, heq]
  set p := kvk.2.headD 0 with hpdef
  have hpmem : p ∈ kvk.2 := headD_mem kvk.2 hvne 0
  have hpspec := occIdxs_mem_spec frames 0 kvk.1 p (hval ▸ hpmem)
  have hplt : p < frames.length := by simpa using hpspec.2.1
  have hpname : frames.getD p "" = kvk.1 := by simpa using hpspec.2.2
  have hcountk : frames.count kvk.1 = kvk.2.length := by
    rw [hval, occIdxs_length]
  have hmaxeq : maxMult frames = kvk.2.length := by
    apply le_antisymm
    · apply foldr_max_le
      intro x hx
      obtain ⟨g, hg, rfl⟩ := List.mem_map.1 hx
      have hmemg : (g, occIdxs 0 frames g) ∈ frameCounts frames :=
        entry_of_mem_frames frames g hg
      have := hmax _ hmemg
      simpa [occIdxs_length] using this
    · rw [← hcountk]
      apply le_foldr_max_of_mem
      exact List.mem_map.2 ⟨kvk.1, hpname ▸ (by
        rw [List.getD_eq_getElem _ _ hplt]; exact List.getElem_mem hplt), rfl⟩
  refine ⟨hp ▸ hplt, ?_, ?_⟩
  · rw [hp, hpname, hcountk, hmaxeq]
  · intro i hi
    rw [hp] at hi
    have hilt : i < frames.length := lt_trans hi hplt
    set ni := frames.getD i "" with hni
    have hnimem : ni ∈ frames := by
      rw [hni, List.getD_eq_getElem _ _ hilt]; exact List.getElem_mem hilt
    have hmemi : (ni, occIdxs 0 frames ni) ∈ frameCounts frames :=
      entry_of_mem_frames frames ni hnimem
    have hheadi : (occIdxs 0 frames ni).headD 0 ≤ i :=
      by simpa using occIdxs_head_le frames 0 ni i hilt hni.symm
    have hnik : ni ≠ kvk.1 := by
      intro hcontra
      rw [hcontra] at hheadi
      rw [← hval] at hheadi
      omega
    obtain ⟨ki, hki⟩ := List.mem_iff_get.1 hmemi
    have hkieq : (frameCounts frames).getD ki.1 ("", []) = (ni, occIdxs 0 frames ni) := by
      rw [List.getD_eq_getElem _ _ ki.2]
      simpa [List.get_eq_getElem] using hki
    have hkik : ki.1 < k := by
      rcases lt_trichotomy ki.1 k with h | h | h
      · exact h
      · exfalso
        apply hnik
        have : kvk = (ni, occIdxs 0 frames ni) := by rw [hkvk, ← h, hkieq]
        rw [this]
      · exfalso
        have hpw := frameCounts_pairwise frames
        rw [List.pairwise_iff_get] at hpw
        have := hpw ⟨k, hk⟩ ki (by simpa using h)
        simp only [headLt] at this
        have hgetk : (frameCounts frames).get ⟨k, hk⟩ = kvk := by
          rw [hkvk, List.getD_eq_getElem _ _ hk]; simp [List.get_eq_getElem]
        rw [hgetk, hki] at this
        simp only at this
        omega
    have := hfirst ki.1 hkik
    rw [hkieq] at this
    simp only at this
    rw [occIdxs_length] at this
    have : frames.count ni < kvk.2.length := this
    rw [hni, hmaxeq]
    exact this

/-- Claim C4, counterexample: for def_type "3" the non-repeated frames receive
`1000/6` ms = 500/3 ms (float `166.66…` in Python), not 167 ms as the claim
states.  Frames `["a","b"]` with the most-repeated frame at index 0: index 1
receives 500/3 ≠ 167. -/
theorem type3DurationCounterexample :
    (getFrameDurations ["a", "b"] "3" 0 true).getD 1 0 = 500 / 3 ∧
      (500 / 3 : ℚ) ≠ 167 := by
  constructor
  · have hm : mostRepeatedFrame ["a", "b"] = 0 := by decide
    norm_num [getFrameDurations, hm, List.range, List.range.loop]
  · intro h
    have := congrArg (fun q : ℚ => q * 3) h
    norm_num at this

/-- Claim C4 (amended: 167 ms → 1000/6 ms): for a DEF whose type maps to
def_type "3", `get_frame_durations` assigns 1000 ms to the most-repeated frame
when the DEF name is an adventure-map creature and 1000/6 ms (≈166.7 ms) to
every other frame; the most-repeated frame is the earliest index whose name
attains the maximum multiplicity in the group. -/
theorem type3Durations (frames : List String) (groupId : Nat) (isAdv : Bool)
    (num : Nat) (hnum : num < frames.length) :
    (getFrameDurations frames "3" groupId isAdv).getD num 0 =
      (if isAdv = true ∧ num = mostRepeatedFrame frames then 1000 else 500 / 3) ∧
    (frames ≠ [] →
      mostRepeatedFrame frames < frames.length ∧
      frames.count (frames.getD (mostRepeatedFrame frames) "") = maxMult frames ∧
      ∀ i, i < mostRepeatedFrame frames →
        frames.count (frames.getD i "") < maxMult frames) := by
  constructor
  · have h39 : ¬("3" : String) = "9" := by decide
    have h32 : ¬("3" : String) = "2" := by decide
    rw [getFrameDurations]
    rw [List.getD_eq_getElem _ _ (by simpa using hnum)]
    rw [List.getElem_map, List.getElem_range]
    rw [if_neg (by rintro ⟨h, -⟩; exact h39 h)]
    rw [if_neg (by rintro ⟨h, -⟩; exact h39 h)]
    rw [if_neg (by rintro ⟨h, -⟩; exact h32 h)]
    by_cases hc : isAdv = true ∧ num = mostRepeatedFrame frames
    · rw [if_pos ⟨rfl, hc.1, hc.2⟩, if_pos hc]
    · rw [if_neg (by rintro ⟨-, h1, h2⟩; exact hc ⟨h1, h2⟩), if_neg hc, if_pos rfl]
      norm_num
  · exact fun h => mostRepeatedFrame_spec frames h

/-- Witness for `type3Durations` at frames `["a","b","a"]`, group 0,
adventure-map creature, frame index 1. -/
theorem type3Durations_witness :
    (getFrameDurations ["a", "b", "a"] "3" 0 true).getD 1 0 =
      (if true = true ∧ 1 = mostRepeatedFrame ["a", "b", "a"] then 1000 else 500 / 3) ∧
    (["a", "b", "a"] ≠ [] →
      mostRepeatedFrame ["a", "b", "a"] < (["a", "b", "a"] : List String).length ∧
      (["a", "b", "a"] : List String).count
          ((["a", "b", "a"] : List String).getD (mostRepeatedFrame ["a", "b", "a"]) "")
        = maxMult ["a", "b", "a"] ∧
      ∀ i, i < mostRepeatedFrame ["a", "b", "a"] →
        (["a", "b", "a"] : List String).count ((["a", "b", "a"] : List String).getD i "")
          < maxMult ["a", "b", "a"]) :=
  type3Durations ["a", "b", "a"] 0 true 1 (by decide)

end MMArchiveCLI

namespace RSDef

/-- Claim C2: a frame block whose header has `frame_w > full_w`,
`frame_h > full_h` and compression 1 is decoded with the rectangle forced to
`frame_left = 0, frame_top = 0, frame_w = full_w, frame_h = full_h` and with
the line data read 16 bytes earlier in the stream (block start `off + 16`
instead of `off + 32`, as if the four rectangle fields were absent); every
frame not meeting all three conditions is decoded with its stored rectangle
unchanged.  Both decode paths (`_do_extract_buffer` and `_extract_buffer`)
behave this way. -/
theorem defLegacyQuirkHandling (data : List Nat) (off : Nat) (both : Bool)
    (hdr0 : PicHdr) (hparse : parsePicHdr data off = some hdr0) :
    (legacyQuirk hdr0 →
      doExtractBuffer data off both = extractCore data (adjHdr hdr0) (off + 16) both ∧
      extractBuffer data off = extractBufferCore data (adjHdr hdr0) (off + 16)) ∧
    (¬legacyQuirk hdr0 →
      doExtractBuffer data off both = extractCore data hdr0 (off + 32) both ∧
      extractBuffer data off = extractBufferCore data hdr0 (off + 32)) := by
  have h16 : off + 32 - 16 = off + 16 := by omega
  constructor
  · intro hq
    constructor
    · rw [doExtractBuffer, hparse]
      simp only [if_pos hq, h16]
    · rw [extractBuffer, hparse]
      simp only [if_pos hq, h16]
  · intro hq
    constructor
    · rw [doExtractBuffer, hparse]
      simp only [if_neg hq]
    · rw [extractBuffer, hparse]
      simp only [if_neg hq]

/-- Witness for `defLegacyQuirkHandling`: a concrete quirk-triggering block. -/
theorem defLegacyQuirkHandling_witness :
    doExtractBuffer quirkData 0 true = extractCore quirkData (adjHdr quirkHdr) (0 + 16) true ∧
    extractBuffer quirkData 0 = extractBufferCore quirkData (adjHdr quirkHdr) (0 + 16) :=
  (defLegacyQuirkHandling quirkData 0 true quirkHdr (by decide)).1 (by decide)

/-- Claim C1 (code bug): the DEF pack/unpack round trip fails.
`_pack_bitmap` writes each row offset as the length of the opcode stream
accumulated so far, relative to the start of the opcode stream, while the
decoder resolves row offsets relative to the frame block start (which
includes the row-offset table), so re-decoding reads the offset table bytes
as opcodes.  Concretely: decoding `c1RoundFrame` yields object `[7, 9]` and
shadow `[255, 255]`; packing those canvases back with compression 1 and
decoding the result yields object `[0, 0]` — not pixel-identical. -/
theorem defRoundTripBug :
    decodeCanvases c1RoundFrame 0 =
      some (⟨2, 1, [7, 9]⟩, ⟨2, 1, [255, 255]⟩) ∧
    (packBitmap ⟨2, 1, [7, 9]⟩ (some ⟨2, 1, [255, 255]⟩) 1).bind
        (fun p => decodeCanvases p 0) =
      some (⟨2, 1, [0, 0]⟩, ⟨2, 1, [255, 255]⟩) ∧
    some ((⟨2, 1, [0, 0]⟩ : Img), (⟨2, 1, [255, 255]⟩ : Img)) ≠
      some ((⟨2, 1, [7, 9]⟩ : Img), (⟨2, 1, [255, 255]⟩ : Img)) := by
  refine ⟨by decide, by decide, by decide⟩

end RSDef

namespace RSDef

lemma getD_set_ne (l : List Nat) (i m v : Nat) (h : i ≠ m) :
    (l.set i v).getD m 0 = l.getD m 0 := by
  simp [List.getD_eq_getElem?_getD, List.getElem?_set, h]

lemma getD_set_eq (l : List Nat) (i v : Nat) (h : i < l.length) :
    (l.set i v).getD i 0 = v := by
  simp [List.getD_eq_getElem?_getD, List.getElem?_set, h]

lemma writeLits_length (data : List Nat) :
    ∀ (n : Nat) (b : List Nat) (base p : Nat), (writeLits data b base p n).length = b.length := by
  intro n
  induction n with
  | zero => intro b base p; rfl
  | succ n ih =>
      intro b base p
      rw [writeLits, ih]
      split <;> simp

lemma fillRun_length (v : Nat) :
    ∀ (n : Nat) (b : List Nat) (base : Nat), (fillRun b base v n).length = b.length := by
  intro n
  induction n with
  | zero => intro b base; rfl
  | succ n ih =>
      intro b base
      rw [fillRun, ih]
      simp

lemma writeLits_getD_out (data : List Nat) :
    ∀ (n : Nat) (b : List Nat) (base p m : Nat), (m < base ∨ base + n ≤ m) →
    (writeLits data b base p n).getD m 0 = b.getD m 0 := by
  intro n
  induction n with
  | zero => intro b base p m _; rfl
  | succ n ih =>
      intro b base p m hm
      rw [writeLits]
      have hbm : base ≠ m := by omega
      rw [ih _ (base + 1) (p + 1) m (by omega)]
      split
      · exact getD_set_ne b base m _ hbm
      · rfl

lemma writeLits_getD_in (data : List Nat) :
    ∀ (n : Nat) (b : List Nat) (base p k : Nat), k < n → base + k < b.length →
    (writeLits data b base p n).getD (base + k) 0 =
      if p + k < data.length then data.getD (p + k) 0 else b.getD (base + k) 0 := by
  intro n
  induction n with
  | zero => intro b base p k hk; omega
  | succ n ih =>
      intro b base p k hk hrange
      rw [writeLits]
      cases k with
      | zero =>
          simp only [Nat.add_zero] at hrange ⊢
          rw [writeLits_getD_out data n _ (base + 1) (p + 1) base (by omega)]
          split
          · next hp => exact getD_set_eq b base _ hrange
          · rfl
      | succ k =>
          have : base + (k + 1) = (base + 1) + k := by omega
          rw [this]
          have hlen : (base + 1) + k < (if p < data.length then b.set base (data.getD p 0) else b).length := by
            have hb : base + 1 + k < b.length := by omega
            split
            · rw [List.length_set]; exact hb
            · exact hb
          rw [ih _ (base + 1) (p + 1) k (by omega) hlen]
          have harith : p + 1 + k = p + (k + 1) := by omega
          rw [harith]
          split
          · rfl
          · split
            · next hp => exact getD_set_ne b base _ _ (by omega)
            · rfl

lemma fillRun_getD_out (v : Nat) :
    ∀ (n : Nat) (b : List Nat) (base m : Nat), (m < base ∨ base + n ≤ m) →
    (fillRun b base v n).getD m 0 = b.getD m 0 := by
  intro n
  induction n with
  | zero => intro b base m _; rfl
  | succ n ih =>
      intro b base m hm
      rw [fillRun, ih _ (base + 1) m (by omega)]
      exact getD_set_ne b base m v (by omega)

lemma fillRun_getD_in (v : Nat) :
    ∀ (n : Nat) (b : List Nat) (base k : Nat), k < n → base + k < b.length →
    (fillRun b base v n).getD (base + k) 0 = v := by
  intro n
  induction n with
  | zero => intro b base k hk; omega
  | succ n ih =>
      intro b base k hk hrange
      rw [fillRun]
      cases k with
      | zero =>
          simp only [Nat.add_zero] at hrange ⊢
          rw [fillRun_getD_out v n _ (base + 1) base (by omega)]
          exact getD_set_eq b base v hrange
      | succ k =>
          have hstep : base + (k + 1) = (base + 1) + k := by omega
          rw [hstep]
          apply ih (b.set base v) (base + 1) k (by omega)
          rw [List.length_set]
          omega

lemma c2Line_stop (data : List Nat) (x : Nat) (both : Bool) (j : Nat)
    (st : Bufs) (p i fuel : Nat) (h : x ≤ i ∨ data.length ≤ p) :
    c2Line data x both j st p i fuel = st := by
  cases fuel with
  | zero => rfl
  | succ fuel =>
      rcases h with h | h
      · rw [c2Line, if_neg (not_lt.2 h)]
      · by_cases hi : i < x
        · rw [c2Line, if_pos hi, if_pos h]
        · rw [c2Line, if_neg hi]

end RSDef

namespace RSDef

lemma c2Line_step (data : List Nat) (x : Nat) (both : Bool) (j : Nat) (st : Bufs)
    (p i fuel : Nat) (hi : i < x) (hp : p < data.length) :
    c2Line data x both j st p i (fuel + 1) =
      (if data.getD p 0 / 32 = 7 then
        c2Line data x both j
          (wObj both st fun b => writeLits data b (j * x + i) (p + 1)
            (min (data.getD p 0 % 32 + 1) (x - i)))
          (p + 1 + (data.getD p 0 % 32 + 1)) (i + (data.getD p 0 % 32 + 1)) fuel
      else
        c2Line data x both j
          (let st1 := wSh both st (fun b =>
            fillRun b (j * x + i) (data.getD p 0 / 32) (min (data.getD p 0 % 32 + 1) (x - i)));
          if data.getD p 0 / 32 = 5 ∧ both = true then
            { st1 with buf := (fillRun st1.buf (j * x + i) (data.getD p 0 / 32)
                (min (data.getD p 0 % 32 + 1) (x - i))) }
          else st1)
          (p + 1) (i + (data.getD p 0 % 32 + 1)) fuel) := by
  rw [c2Line, if_pos hi, if_neg (not_le.2 hp)]

/-- Claim C3: compression-2 opcode semantics (dual-buffer decode), plus the
concrete scenario in both decode paths.  For an opcode byte `v` with
`code = v / 32` and `length = v % 32 + 1` at the current row position:
`code == 7` writes the following literal bytes into the object buffer and
leaves the shadow untouched; any other code fills the run in the shadow
buffer with `code`, additionally writing 5 into the object buffer when
`code == 5`; pixels outside the run are untouched.  A frame holding one
16-pixel span of colour 5 followed by 16 transparent pixels decodes to
object `16×5 ++ 16×0` and shadow `16×5 ++ 16×0xFF` in both
`_do_extract_buffer` (dual-buffer) and `_extract_buffer`. -/
theorem comp2OpcodeSemantics
    (pre payload : List Nat) (v x i j fuel : Nat) (st res : Bufs)
    (hx : i < x)
    (hpay : if v / 32 = 7 then payload.length ≤ v % 32 + 1 else payload = [])
    (hlen : st.buf.length = st.sh.length)
    (hjx : (j + 1) * x ≤ st.buf.length)
    (hres : res = c2Line (pre ++ v :: payload) x true j st pre.length i (fuel + 1)) :
    ((v / 32 = 7 →
        res.sh = st.sh ∧
        (∀ k, k < min (v % 32 + 1) (x - i) →
          res.buf.getD (j * x + i + k) 0 =
            (if k < payload.length then payload.getD k 0
             else st.buf.getD (j * x + i + k) 0)) ∧
        (∀ m, m < j * x + i ∨ j * x + i + min (v % 32 + 1) (x - i) ≤ m →
          res.buf.getD m 0 = st.buf.getD m 0)) ∧
     (v / 32 ≠ 7 →
        (∀ k, k < min (v % 32 + 1) (x - i) →
          res.sh.getD (j * x + i + k) 0 = v / 32 ∧
          res.buf.getD (j * x + i + k) 0 =
            (if v / 32 = 5 then 5 else st.buf.getD (j * x + i + k) 0)) ∧
        (∀ m, m < j * x + i ∨ j * x + i + min (v % 32 + 1) (x - i) ≤ m →
          res.sh.getD m 0 = st.sh.getD m 0 ∧ res.buf.getD m 0 = st.buf.getD m 0))) ∧
    doExtractBuffer c2Scenario 0 true =
      some (⟨0, 2, 32, 1, 32, 1, 0, 0⟩,
        List.replicate 16 5 ++ List.replicate 16 0,
        some (List.replicate 16 5 ++ List.replicate 16 0),
        some (List.replicate 16 5 ++ List.replicate 16 255)) ∧
    extractBuffer c2Scenario 0 =
      some (⟨0, 2, 32, 1, 32, 1, 0, 0⟩,
        List.replicate 16 5 ++ List.replicate 16 0,
        some (List.replicate 16 5 ++ List.replicate 16 255)) := by
  have hdlen : (pre ++ v :: payload).length = pre.length + 1 + payload.length := by
    simp [List.length_append]
    omega
  have hplt : pre.length < (pre ++ v :: payload).length := by omega
  have hv : (pre ++ v :: payload).getD pre.length 0 = v := by
    rw [List.getD_append_right _ _ _ _ (le_refl _)]
    simp
  have hbase : ∀ k, k < x - i → j * x + i + k < st.buf.length := by
    intro k hk
    have : (j + 1) * x = j * x + x := by rw [Nat.succ_mul]
    omega
  refine ⟨?_, by decide, by decide⟩
  rw [c2Line_step _ _ _ _ _ _ _ _ hx hplt, hv] at hres
  constructor
  · intro hc
    rw [if_pos hc] at hres
    rw [if_pos hc] at hpay
    rw [c2Line_stop _ _ _ _ _ _ _ _ (Or.inr (by omega))] at hres
    have hwObj : wObj true st
        (fun b => writeLits (pre ++ v :: payload) b (j * x + i) (pre.length + 1)
          (min (v % 32 + 1) (x - i))) =
        ⟨writeLits (pre ++ v :: payload) st.buf (j * x + i) (pre.length + 1)
          (min (v % 32 + 1) (x - i)), st.sh⟩ := rfl
    rw [hwObj] at hres
    subst hres
    refine ⟨rfl, ?_, ?_⟩
    · intro k hk
      rw [writeLits_getD_in _ _ _ _ _ _ hk (hbase k (lt_of_lt_of_le hk (min_le_right _ _)))]
      by_cases hkp : k < payload.length
      · rw [if_pos (by omega), if_pos hkp]
        rw [List.getD_append_right _ _ _ _ (by omega : pre.length ≤ pre.length + 1 + k)]
        have : pre.length + 1 + k - pre.length = k + 1 := by omega
        rw [this]
        simp
      · rw [if_neg (by omega), if_neg hkp]
    · intro m hm
      exact writeLits_getD_out _ _ _ _ _ _ hm
  · intro hc
    rw [if_neg hc] at hres
    rw [if_neg hc] at hpay
    subst hpay
    rw [c2Line_stop _ _ _ _ _ _ _ _ (Or.inr (by simp))] at hres
    have hwSh : wSh true st
        (fun b => fillRun b (j * x + i) (v / 32) (min (v % 32 + 1) (x - i))) =
        ⟨st.buf, fillRun st.sh (j * x + i) (v / 32) (min (v % 32 + 1) (x - i))⟩ := rfl
    simp only [hwSh] at hres
    by_cases h5 : v / 32 = 5
    · rw [if_pos (by exact ⟨h5, trivial⟩)] at hres
      subst hres
      refine ⟨?_, ?_⟩
      · intro k hk
        have hin : j * x + i + k < st.buf.length :=
          hbase k (lt_of_lt_of_le hk (min_le_right _ _))
        constructor
        · exact fillRun_getD_in _ _ _ _ _ hk (by rw [← hlen]; exact hin)
        · rw [if_pos h5]
          simpa [h5] using fillRun_getD_in (v / 32) _ st.buf _ k hk hin
      · intro m hm
        exact ⟨fillRun_getD_out _ _ _ _ _ hm, fillRun_getD_out _ _ _ _ _ hm⟩
    · rw [if_neg (by simp [h5])] at hres
      subst hres
      refine ⟨?_, ?_⟩
      · intro k hk
        have hin : j * x + i + k < st.buf.length :=
          hbase k (lt_of_lt_of_le hk (min_le_right _ _))
        exact ⟨fillRun_getD_in _ _ _ _ _ hk (by rw [← hlen]; exact hin),
          by rw [if_neg h5]⟩
      · intro m hm
        exact ⟨fillRun_getD_out _ _ _ _ _ hm, rfl⟩

end RSDef

namespace RSDef

/-- Witness for `comp2OpcodeSemantics`: opcode byte 160 = `(5 << 5) | 0`
(a 1-pixel run of colour 5) decoded at row 0, position 0 of a 2-pixel row. -/
theorem comp2OpcodeSemantics_witness :
    ((160 / 32 = 7 →
        (⟨[5, 0], [5, 255]⟩ : Bufs).sh = (⟨[0, 0], [255, 255]⟩ : Bufs).sh ∧
        (∀ k, k < min (160 % 32 + 1) (2 - 0) →
          (⟨[5, 0], [5, 255]⟩ : Bufs).buf.getD (0 * 2 + 0 + k) 0 =
            (if k < List.length ([] : List Nat) then ([] : List Nat).getD k 0
             else (⟨[0, 0], [255, 255]⟩ : Bufs).buf.getD (0 * 2 + 0 + k) 0)) ∧
        (∀ m, m < 0 * 2 + 0 ∨ 0 * 2 + 0 + min (160 % 32 + 1) (2 - 0) ≤ m →
          (⟨[5, 0], [5, 255]⟩ : Bufs).buf.getD m 0 =
            (⟨[0, 0], [255, 255]⟩ : Bufs).buf.getD m 0)) ∧
     (160 / 32 ≠ 7 →
        (∀ k, k < min (160 % 32 + 1) (2 - 0) →
          (⟨[5, 0], [5, 255]⟩ : Bufs).sh.getD (0 * 2 + 0 + k) 0 = 160 / 32 ∧
          (⟨[5, 0], [5, 255]⟩ : Bufs).buf.getD (0 * 2 + 0 + k) 0 =
            (if 160 / 32 = 5 then 5
             else (⟨[0, 0], [255, 255]⟩ : Bufs).buf.getD (0 * 2 + 0 + k) 0)) ∧
        (∀ m, m < 0 * 2 + 0 ∨ 0 * 2 + 0 + min (160 % 32 + 1) (2 - 0) ≤ m →
          (⟨[5, 0], [5, 255]⟩ : Bufs).sh.getD m 0 =
              (⟨[0, 0], [255, 255]⟩ : Bufs).sh.getD m 0 ∧
            (⟨[5, 0], [5, 255]⟩ : Bufs).buf.getD m 0 =
              (⟨[0, 0], [255, 255]⟩ : Bufs).buf.getD m 0))) ∧
    doExtractBuffer c2Scenario 0 true =
      some (⟨0, 2, 32, 1, 32, 1, 0, 0⟩,
        List.replicate 16 5 ++ List.replicate 16 0,
        some (List.replicate 16 5 ++ List.replicate 16 0),
        some (List.replicate 16 5 ++ List.replicate 16 255)) ∧
    extractBuffer c2Scenario 0 =
      some (⟨0, 2, 32, 1, 32, 1, 0, 0⟩,
        List.replicate 16 5 ++ List.replicate 16 0,
        some (List.replicate 16 5 ++ List.replicate 16 255)) :=
  comp2OpcodeSemantics [] [] 160 2 0 0 1 ⟨[0, 0], [255, 255]⟩ ⟨[5, 0], [5, 255]⟩
    (by decide) (by decide) (by decide) (by decide) (by decide)

end RSDef

namespace RSLod

/-- Claim C7 (code bug): `delete` does not preserve the sorted-directory
invariant.  `remove_data` copies the last slot into the vacated slot
(swap-remove) instead of shifting, so deleting entry 0 of the sorted
directory `a, b, c` leaves `c, b` — out of case-insensitive lexical order,
which subsequent binary searches rely on. -/
theorem deleteBreaksSortedInvariant :
    dirSorted demoABC = true ∧
    (doDelete demoABC 0).count = 2 ∧
    getName (doDelete demoABC 0) 0 = [99] ∧
    getName (doDelete demoABC 0) 1 = [98] ∧
    dirSorted (doDelete demoABC 0) = false := by decide

/-- Claim C6 (code bug): after `rename(0, "b0")` on the sorted directory
`a, b, c, d, f, g`, the directory reads `b0, g, b, c, d, f` and the binary
search of `find_file("b0")` misses the renamed entry, so
`extract(find(new))` cannot return the payload.  `rename` copies the last
slot into the vacated slot without truncating `self.data` and then
binary-searches the now unsorted directory for the insertion point. -/
theorem renameLosesEntry :
    dirSorted demoSix = true ∧
    (rename demoSix 0 [98, 48]).map (fun p => (findFile p.1 [98, 48]).1) =
      some false ∧
    (rename demoSix 0 [98, 48]).map
        (fun p => (List.range p.1.count).map (getName p.1)) =
      some [[98, 48], [103], [98], [99], [100], [102]] := by decide

end RSLod

namespace RSLod

lemma saveAsLoop_fails (inFile : List Nat) (k : Nat) :
    ∀ (n i : Nat) (st : MMFiles × List Nat), i ≤ k → k < i + n →
    (saveAsLoop inFile (some k) i n st).1 = true := by
  intro n
  induction n with
  | zero => intro i st h1 h2; omega
  | succ n ih =>
      intro i st h1 h2
      obtain ⟨m, out⟩ := st
      by_cases hik : i = k
      · rw [saveAsLoop, if_pos (by rw [hik])]
      · rw [saveAsLoop, if_neg (by simpa using fun h => hik h.symm)]
        exact ih (i + 1) _ (by omega) (by omega)

/-- Claim C9, counterexample: an exception during the final header write of
`save_as` (after the entry-copy loop has finished and set `ok = True`) does
not restore the directory table, which the copy loop has already rewritten
with the compacted addresses — the claim promises restoration for any
exception raised during `save_as`. -/
theorem saveAsHeaderFailureNoRollback :
    (saveAs c9Demo c9InFile none (some 1)).1 = true ∧
    (saveAs c9Demo c9InFile none (some 1)).2.1.slots ≠ c9Demo.slots := by
  decide

/-- Claim C9 (amended: restricted to exceptions raised while copying the
entry payloads): if the exception is raised in the copy loop — before the
final header write — the in-memory directory table and the recorded archive
size are restored to their pre-call snapshot, the exception propagates to
the caller (error result), and the partially-written output file is not
deleted.  An exception in the final header write (injection point `count`)
skips the restoration. -/
theorem saveAsRollback (m : MMFiles) (inFile : List Nat) (hb : Option (List Nat))
    (k : Nat) (hk : k < m.count) :
    (saveAs m inFile hb (some k)).1 = true ∧
    (saveAs m inFile hb (some k)).2.1.slots = m.slots ∧
    (saveAs m inFile hb (some k)).2.1.fileSize = m.fileSize ∧
    (saveAs m inFile hb (some k)).2.2.isSome = true := by
  have hloop := saveAsLoop_fails inFile k m.count 0
    ({ m with fileSize := (max m.options.minFileSize
      (m.options.dataStart + m.slots.length * m.options.itemSize)) }, [])
    (by omega) (by omega)
  rw [saveAs]
  simp only [hloop, if_pos rfl]
  exact ⟨rfl, rfl, rfl, rfl⟩

/-- Witness for `saveAsRollback` on the concrete archive, failing at the
first copied entry. -/
theorem saveAsRollback_witness :
    (saveAs c9Demo c9InFile none (some 0)).1 = true ∧
    (saveAs c9Demo c9InFile none (some 0)).2.1.slots = c9Demo.slots ∧
    (saveAs c9Demo c9InFile none (some 0)).2.1.fileSize = c9Demo.fileSize ∧
    (saveAs c9Demo c9InFile none (some 0)).2.2.isSome = true :=
  saveAsRollback c9Demo c9InFile none 0 (by decide)

end RSLod

namespace RSLod

set_option maxRecDepth 40000 in
/-- Claim C5, counterexample: entry `pal7` of `c5Demo` has file size
`48 + 16 + 768 = 832` and its trailing 768 bytes byte-match the candidate
palette, yet `find_same_palette` returns no hit (the code additionally
requires the three leading header fields to be zero, and `pal7` has
`bmp_size = 7`); the returned free id 10 moreover collides with the
existing `pal10` (the lowest free id is 11), because the first-fit band
counters assume the ids are scanned in ascending numeric order while the
directory is sorted lexically (`pal1, pal10, pal2, …`). -/
theorem findSamePaletteCounterexample :
    getName c5Demo 7 = [112, 97, 108, 55] ∧
    getSize c5Demo 7 = 832 ∧
    RSDef.sliceList (entryStoredBytes c5Demo c5File 7) 64 768 = c5Pal ∧
    getName c5Demo 1 = [112, 97, 108, 49, 48] ∧
    findSamePalette true c5Demo c5File c5Pal = (false, 10) := by
  refine ⟨by decide, by decide, by decide, by decide, by decide⟩

end RSLod

namespace RSLod

lemma palLoop_true_iff (m : MMFiles) (f pal : List Nat) :
    ∀ (n i : Nat) (frs : Nat × Nat × Nat),
    ((findSamePaletteLoop m f pal i n frs).1 = true ↔
      ∃ k, i ≤ k ∧ k < i + n ∧ palMatch m f pal k = true) := by
  intro n
  induction n with
  | zero =>
      intro i frs
      rw [findSamePaletteLoop]
      simp only [Bool.false_eq_true, false_iff]
      rintro ⟨k, h1, h2, -⟩
      omega
  | succ n ih =>
      intro i frs
      have hshift : ∀ (P : Nat → Prop), ¬P i →
          ((∃ k, i + 1 ≤ k ∧ k < i + 1 + n ∧ P k) ↔
            (∃ k, i ≤ k ∧ k < i + (n + 1) ∧ P k)) := by
        intro P hPi
        constructor
        · rintro ⟨k, h1, h2, h3⟩; exact ⟨k, by omega, by omega, h3⟩
        · rintro ⟨k, h1, h2, h3⟩
          refine ⟨k, ?_, by omega, h3⟩
          rcases Nat.eq_or_lt_of_le h1 with rfl | h
          · exact absurd h3 hPi
          · omega
      rw [findSamePaletteLoop]
      split
      · next hpre =>
          rw [ih]
          exact hshift _ (by simp [palMatch, fun h => hpre (by simpa using h)])
      · next hpre =>
          split
          · next hp =>
              rw [ih]
              exact hshift _ (by simp [palMatch, hp])
          · next j hp =>
              split
              · next hj =>
                  rw [ih]
                  apply hshift
                  simp only [palMatch, hp, Bool.and_eq_true, decide_eq_true_eq]
                  rintro ⟨-, ⟨hj1, hj2⟩, -⟩
                  rcases hj with hj | hj
                  · exact hj1 hj
                  · omega
              · next hj =>
                  by_cases hs : isSamePalette m f pal i = true
                  · simp only [if_pos hs]
                    refine iff_of_true trivial ⟨i, le_refl i, by omega, ?_⟩
                    simp only [palMatch, hp, Bool.and_eq_true, decide_eq_true_eq]
                    exact ⟨by simpa using hpre, ⟨fun h => hj (Or.inl h), by omega⟩, hs⟩
                  · simp only [if_neg hs]
                    rw [ih]
                    apply hshift
                    simp only [palMatch, hp, Bool.and_eq_true, decide_eq_true_eq]
                    rintro ⟨-, -, hs2⟩
                    exact hs hs2

lemma palLoop_first (m : MMFiles) (f pal : List Nat) :
    ∀ (n i : Nat) (frs : Nat × Nat × Nat) (k : Nat), i ≤ k → k < i + n →
    palMatch m f pal k = true →
    (∀ k2, i ≤ k2 → k2 < k → palMatch m f pal k2 = false) →
    findSamePaletteLoop m f pal i n frs = (true, palIdOf m k) := by
  intro n
  induction n with
  | zero => intro i frs k h1 h2; omega
  | succ n ih =>
      intro i frs k h1 h2 hmatch hmin
      rw [findSamePaletteLoop]
      rcases Nat.eq_or_lt_of_le h1 with rfl | hik
      · split
        · next hpre => simp [palMatch, fun h => hpre (by simpa using h)] at hmatch
        · next hpre =>
            split
            · next hp => simp [palMatch, hp] at hmatch
            · next j hp =>
                simp only [palMatch, hp, Bool.and_eq_true, decide_eq_true_eq] at hmatch
                obtain ⟨hpre2, ⟨hj1, hj2⟩, hs⟩ := hmatch
                split
                · next hj => rcases hj with hj | hj; exact absurd hj hj1; omega
                · next hj =>
                    simp [palIdOf, hp]
      · have hPi : palMatch m f pal i = false := hmin i (le_refl i) hik
        have hnext : ∀ frs2, findSamePaletteLoop m f pal (i + 1) n frs2 = (true, palIdOf m k) :=
          fun frs2 => ih (i + 1) frs2 k (by omega) (by omega) hmatch
            (fun k2 ha hb => hmin k2 (by omega) hb)
        split
        · next hpre => exact hnext _
        · next hpre =>
            split
            · next hp => exact hnext _
            · next j hp =>
                split
                · next hj => exact hnext _
                · next hj =>
                    by_cases hs : isSamePalette m f pal i = true
                    · exfalso
                      have hPt : palMatch m f pal i = true := by
                        simp only [palMatch, hp, Bool.and_eq_true, decide_eq_true_eq]
                        exact ⟨by simpa using hpre, ⟨fun h => hj (Or.inl h), by omega⟩, hs⟩
                      rw [hPt] at hPi
                      cases hPi
                    · simp only [if_neg hs]
                      exact hnext _

/-- Claim C5 (amended): within a Bitmaps LOD, `find_same_palette(bytes)`
returns a hit iff some entry in the scan range `[find('pal'), find('pam'))`
is named `palNNN` with `NNN` in 1..0x7FFF, has file size equal to the 48-byte
bitmap header + 16 + 768 **with the three leading header fields zero**, and
its trailing 768 bytes byte-match the given palette; the hit is the first
such entry in directory order and the returned id is its parsed `NNN` (so a
bitmap whose palette byte-equals an existing well-formed `palNNN` entry
reuses `NNN`).  Otherwise it returns the first-fit band-counter id over the
bands 1..999, 1000..9999, 10000..32767, which equals the lowest free id only
when the scanned ids appear in ascending numeric order (see the
counterexample). -/
theorem findSamePaletteSpec (m : MMFiles) (f pal : List Nat) :
    ((findSamePalette true m f pal).1 = true ↔
      ∃ k, palScanLo m ≤ k ∧ k < palScanHi m ∧ palMatch m f pal k = true) ∧
    (∀ k, palScanLo m ≤ k → k < palScanHi m → palMatch m f pal k = true →
      (∀ k2, palScanLo m ≤ k2 → k2 < k → palMatch m f pal k2 = false) →
      findSamePalette true m f pal = (true, palIdOf m k)) := by
  constructor
  · rw [findSamePalette, if_neg (by simp)]
    rw [palLoop_true_iff]
    constructor
    · rintro ⟨k, h1, h2, h3⟩
      exact ⟨k, h1, by omega, h3⟩
    · rintro ⟨k, h1, h2, h3⟩
      exact ⟨k, h1, by omega, h3⟩
  · intro k h1 h2 h3 h4
    rw [findSamePalette, if_neg (by simp)]
    exact palLoop_first m f pal _ _ _ k h1 (by omega) h3 h4

set_option maxRecDepth 40000 in
theorem findSamePaletteSpec_witness :
    findSamePalette true c5HitDemo c5HitFile c5Pal = (true, palIdOf c5HitDemo 0) :=
  (findSamePaletteSpec c5HitDemo c5HitFile c5Pal).2 0 (by decide) (by decide) (by decide)
    (fun k2 _ hb => absurd hb (Nat.not_lt_zero k2))

lemma getD_set_self {α : Type _} [Inhabited α] (l : List α) (i : Nat) (v : α)
    (h : i < l.length) : (l.set i v).getD i default = v := by
  rw [List.getD_eq_getElem _ _ (by simpa using h)]
  exact List.getElem_set_self _

lemma slots_mk (o : Options) (sl : List Slot) (c fs : Nat)
    (fb : List (Option (List Nat))) (so gl wd : Bool) :
    (MMFiles.mk o sl c fs fb so gl wd).slots = sl := rfl

lemma writeHeader_slots (hb : Option (List Nat)) (m : MMFiles) (f : List Nat) :
    ((writeHeader hb m f).1).slots = m.slots := by
  by_cases h : m.count = 0 <;> simp [writeHeader, h]

lemma doWriteFile_slots (m : MMFiles) (f : List Nat) (i : Nat)
    (bytes : List Nat) (addr : Nat) :
    ((doWriteFile m f i bytes addr).1).slots =
      m.slots.set i
        { m.slots.getD i default with addr := addr - m.options.addrStart } := by
  by_cases h : m.writeOnDemand = true <;> simp [doWriteFile, h]

lemma doWriteFile_slots_length (m : MMFiles) (f : List Nat) (i : Nat)
    (bytes : List Nat) (addr : Nat) :
    ((doWriteFile m f i bytes addr).1).slots.length = m.slots.length := by
  rw [doWriteFile_slots, List.length_set]

lemma doMoveFile_slots_length (m : MMFiles) (f : List Nat) (i addr : Nat) :
    ((doMoveFile m f i addr).1).slots.length = m.slots.length := by
  cases hfb : m.fileBuffers.getD i none <;>
    simp only [doMoveFile, hfb] <;>
    exact doWriteFile_slots_length _ _ _ _ _

lemma addRelocate_slots_length (L : Nat) (st : MMFiles × List Nat) (i : Nat) :
    ((addRelocate L st i).1).slots.length = st.1.slots.length := by
  rw [addRelocate]
  split
  · exact doMoveFile_slots_length _ _ _ _
  · rfl

lemma foldl_addRelocate_slots_length (L : Nat) (l : List Nat) :
    ∀ st : MMFiles × List Nat,
      ((l.foldl (addRelocate L) st).1).slots.length = st.1.slots.length := by
  induction l with
  | nil => intro st; rfl
  | cons a t ih =>
      intro st
      rw [List.foldl_cons, ih, addRelocate_slots_length]

lemma addFields_pkF (opt : Options) (s0 : Slot) (name : List Nat)
    (size unp pk : Int) (h : 0 ≤ opt.packedSizeOffset) :
    (addFields opt s0 name size unp pk).pkF = pk := by
  simp [addFields, h]

lemma addWrite_lt_length (m : MMFiles) (f : List Nat) (fr : Bool × Nat)
    (bytes : List Nat) (hidx : fr.2 ≤ m.slots.length)
    (hfound : fr.1 = true → fr.2 < m.slots.length) :
    fr.2 < ((addWrite m f fr bytes).1).slots.length := by
  by_cases hf : fr.1 = true
  · rw [addWrite, if_pos hf]
    split
    · rw [doWriteFile_slots_length]; exact hfound hf
    · rw [doWriteFile_slots_length]; exact hfound hf
  · rw [addWrite, if_neg hf, doWriteFile_slots_length]
    simp only [slots_mk]
    rw [List.length_insertIdx _ _
        (by rw [foldl_addRelocate_slots_length]; exact hidx),
      foldl_addRelocate_slots_length]
    exact Nat.lt_succ_of_le hidx

lemma add_result_general (m : MMFiles) (hb : Option (List Nat))
    (st : MMFiles × List Nat) (fr2 : Nat) (s4 : Slot)
    (hlt : fr2 < st.1.slots.length) :
    ∃ m' f',
      (if m.writeOnDemand = false then
        some ((writeHeader hb { st.1 with slots := st.1.slots.set fr2 s4 } st.2).1,
          (writeHeader hb { st.1 with slots := st.1.slots.set fr2 s4 } st.2).2, fr2)
       else some (({ st.1 with slots := st.1.slots.set fr2 s4 } : MMFiles), st.2, fr2))
        = some (m', f', fr2) ∧
      m'.slots.getD fr2 default = s4 := by
  by_cases hw : m.writeOnDemand = false
  · rw [if_pos hw]
    refine ⟨_, _, rfl, ?_⟩
    rw [writeHeader_slots]
    show (st.1.slots.set fr2 s4).getD fr2 default = s4
    exact getD_set_self _ _ _ hlt
  · rw [if_neg hw]
    refine ⟨_, _, rfl, ?_⟩
    show (st.1.slots.set fr2 s4).getD fr2 default = s4
    exact getD_set_self _ _ _ hlt

lemma add_pkF (m : MMFiles) (f : List Nat) (hb : Option (List Nat))
    (deflate : List Nat → List Nat) (name payload : List Nat)
    (compression : Nat) (unpackedSize : Int)
    (hname : name.length < m.options.nameSize)
    (hidx : (findAddIndex m name).2 ≤ m.slots.length)
    (hfound : (findAddIndex m name).1 = true →
      (findAddIndex m name).2 < m.slots.length) :
    ∃ m' f', add m f hb deflate name payload compression unpackedSize =
      some (m', f', (findAddIndex m name).2) ∧
      (0 ≤ m.options.packedSizeOffset →
        (m'.slots.getD (findAddIndex m name).2 default).pkF =
          (addPack m.options deflate payload compression unpackedSize).2.2) := by
  obtain ⟨m', f', heq, hslot⟩ := add_result_general m hb
    (addWrite m f (findAddIndex m name)
      (addPack m.options deflate payload compression unpackedSize).1)
    (findAddIndex m name).2
    (addFields m.options
      ((addWrite m f (findAddIndex m name)
        (addPack m.options deflate payload compression unpackedSize).1).1.slots.getD
        (findAddIndex m name).2 default)
      name
      ((addPack m.options deflate payload compression unpackedSize).1.length : Int)
      (addPack m.options deflate payload compression unpackedSize).2.1
      (addPack m.options deflate payload compression unpackedSize).2.2)
    (addWrite_lt_length m f (findAddIndex m name) _ hidx hfound)
  refine ⟨m', f', ?_, fun hpk => ?_⟩
  · rw [add, if_neg (not_le.mpr hname)]
    exact heq
  · rw [hslot]
    exact addFields_pkF _ _ _ _ _ _ hpk

/-- Claim C8: when `TRSMMFiles.add` attempts compression of a payload
(default negative `unpacked_size`, nonzero compression level, payload over
64 bytes, packed-size field present), the deflated form is kept only if it
is strictly smaller than the raw payload, and a stored-raw result records
packed size 0 in the directory slot; `pack_bitmap` likewise keeps the
deflated pixel + mipmap data only if strictly smaller and records
`unp_size = 0` for a stored-raw result. -/
theorem compressionKeptOnlyIfSmaller
    (m : MMFiles) (f : List Nat) (hb : Option (List Nat))
    (deflate : List Nat → List Nat) (name payload : List Nat)
    (compression : Nat)
    (hname : name.length < m.options.nameSize)
    (hcomp : compression ≠ 0) (hsize : 64 < payload.length)
    (hfield : 0 ≤ m.options.packedSizeOffset)
    (hidx : (findAddIndex m name).2 ≤ m.slots.length)
    (hfound : (findAddIndex m name).1 = true →
      (findAddIndex m name).2 < m.slots.length)
    (pixelData mipmapData : List Nat) :
    (addPack m.options deflate payload compression (-1) =
      if (deflate payload).length < payload.length then
        (deflate payload, (payload.length : Int), ((deflate payload).length : Int))
      else (payload, (payload.length : Int), 0)) ∧
    (∃ m' f', add m f hb deflate name payload compression (-1) =
        some (m', f', (findAddIndex m name).2) ∧
      (m'.slots.getD (findAddIndex m name).2 default).pkF =
        (if (deflate payload).length < payload.length
         then ((deflate payload).length : Int) else 0)) ∧
    (packBitmapLod deflate pixelData mipmapData =
      if (deflate (pixelData ++ mipmapData)).length <
          (pixelData ++ mipmapData).length then
        (deflate (pixelData ++ mipmapData), (pixelData ++ mipmapData).length,
         (deflate (pixelData ++ mipmapData)).length,
         32 + (deflate (pixelData ++ mipmapData)).length + 768)
      else (pixelData ++ mipmapData, 0, (pixelData ++ mipmapData).length,
        32 + (pixelData ++ mipmapData).length + 768)) := by
  have hpack : addPack m.options deflate payload compression (-1) =
      if (deflate payload).length < payload.length then
        (deflate payload, (payload.length : Int), ((deflate payload).length : Int))
      else (payload, (payload.length : Int), 0) := by
    rw [addPack, if_neg (by omega), if_pos ⟨hcomp, hsize, Or.inl hfield⟩]
  refine ⟨hpack, ?_, ?_⟩
  · obtain ⟨m', f', heq, hpk⟩ := add_pkF m f hb deflate name payload compression
      (-1) hname hidx hfound
    refine ⟨m', f', heq, ?_⟩
    rw [hpk hfield, hpack]
    split <;> rfl
  · rw [packBitmapLod]

theorem compressionKeptOnlyIfSmaller_witness :
    (addPack demoABC.options c8Deflate c8Payload 6 (-1) =
      if (c8Deflate c8Payload).length < c8Payload.length then
        (c8Deflate c8Payload, (c8Payload.length : Int),
         ((c8Deflate c8Payload).length : Int))
      else (c8Payload, (c8Payload.length : Int), 0)) ∧
    (∃ m' f', add demoABC [] none c8Deflate [100] c8Payload 6 (-1) =
        some (m', f', (findAddIndex demoABC [100]).2) ∧
      (m'.slots.getD (findAddIndex demoABC [100]).2 default).pkF =
        (if (c8Deflate c8Payload).length < c8Payload.length
         then ((c8Deflate c8Payload).length : Int) else 0)) ∧
    (packBitmapLod c8Deflate [1, 2] [3] =
      if (c8Deflate ([1, 2] ++ [3])).length < (([1, 2] ++ [3]) : List Nat).length
      then
        (c8Deflate ([1, 2] ++ [3]), (([1, 2] ++ [3]) : List Nat).length,
         (c8Deflate ([1, 2] ++ [3])).length,
         32 + (c8Deflate ([1, 2] ++ [3])).length + 768)
      else ((([1, 2] ++ [3]) : List Nat), 0, (([1, 2] ++ [3]) : List Nat).length,
        32 + (([1, 2] ++ [3]) : List Nat).length + 768)) :=
  compressionKeptOnlyIfSmaller demoABC [] none c8Deflate [100] c8Payload 6
    (by decide) (by decide) (by decide) (by decide) (by decide) (by decide)
    [1, 2] [3]

/-- Claim C10 counterexample: a 10-byte payload added with a
caller-supplied nonnegative `unpacked_size` (as `merge_to` does for packed
entries, src/src/RSLod_part2.py line 589) is stored uncompressed but its
packed-size field records `size = 10`, not 0. -/
theorem addCompressionGateCounterexample :
    (add demoABC (List.replicate 30 7) none (fun l => l) [100] c10Payload 6
        20).map (fun r => (r.1.slots.getD r.2.2 default).pkF) = some 10 ∧
    c10Payload.length ≤ 64 := by
  constructor
  · decide
  · decide

/-- Claim C10 (amended): with the default negative `unpacked_size`,
`TRSMMFiles.add` attempts zlib compression only when the payload exceeds
64 bytes, the compression level is nonzero and the layout has a packed- or
unpacked-size field; outside those conditions the raw payload is handed to
the write phase with `pk_size = 0`, and the packed-size field, when the
layout has one, records 0.  A caller-supplied nonnegative `unpacked_size`
bypasses the gate and records `pk_size = size` even for payloads of at
most 64 bytes (see the counterexample). -/
theorem addCompressionGate
    (m : MMFiles) (f : List Nat) (hb : Option (List Nat))
    (deflate : List Nat → List Nat) (name payload : List Nat)
    (compression : Nat) (unpackedSize : Int)
    (hunp : unpackedSize < 0)
    (hgate : ¬(compression ≠ 0 ∧ 64 < payload.length ∧
      (0 ≤ m.options.packedSizeOffset ∨ 0 ≤ m.options.unpackedSizeOffset)))
    (hname : name.length < m.options.nameSize)
    (hidx : (findAddIndex m name).2 ≤ m.slots.length)
    (hfound : (findAddIndex m name).1 = true →
      (findAddIndex m name).2 < m.slots.length) :
    addPack m.options deflate payload compression unpackedSize =
      (payload, (payload.length : Int), 0) ∧
    (∃ m' f', add m f hb deflate name payload compression unpackedSize =
        some (m', f', (findAddIndex m name).2) ∧
      (0 ≤ m.options.packedSizeOffset →
        (m'.slots.getD (findAddIndex m name).2 default).pkF = 0)) := by
  have hpack : addPack m.options deflate payload compression unpackedSize =
      (payload, (payload.length : Int), 0) := by
    rw [addPack, if_neg (by omega), if_neg hgate]
  refine ⟨hpack, ?_⟩
  obtain ⟨m', f', heq, hpk⟩ := add_pkF m f hb deflate name payload compression
    unpackedSize hname hidx hfound
  exact ⟨m', f', heq, fun h => by rw [hpk h, hpack]⟩

theorem addCompressionGate_witness :
    (addPack demoABC.options (fun l => l.take 3) c10Payload 6 (-1) =
      (c10Payload, (c10Payload.length : Int), 0)) ∧
    (∃ m' f', add demoABC [] none (fun l => l.take 3) [100] c10Payload 6 (-1) =
        some (m', f', (findAddIndex demoABC [100]).2) ∧
      (0 ≤ demoABC.options.packedSizeOffset →
        (m'.slots.getD (findAddIndex demoABC [100]).2 default).pkF = 0)) :=
  addCompressionGate demoABC [] none (fun l => l.take 3) [100] c10Payload 6
    (-1) (by decide) (by decide) (by decide) (by decide) (by decide)

end RSLod
